import Mathlib

/-!
# s3jekyll: a verification development

A shallow embedding of `s3jekyll.go` (a tool that walks a local directory and
uploads every file that is not ignored to an S3 bucket) and theorems about its
configuration validation, ignore matching, key derivation and walk callback.

Conventions of the embedding.

* A Go `string` is a sequence of bytes: `GoString := List UInt8`.
  `str "abc"` is the UTF-8 encoding of a Lean string literal.
* A Go `error` is `Option GoError`; `none` is `nil`.
* A Go slice that may be `nil` is `Option (List _)`; `none` is the `nil` slice and
  `some []` the empty non-nil slice.
* The operating system, the MIME table and the S3 bucket are an explicit `World`
  of call outcomes; the effects of a call are recorded in a `Log`.
* Functions of the Go standard library that the program calls
  (`filepath.Base`, `filepath.Ext`, `filepath.Match`, `strings.Replace`,
  `json.MarshalIndent`, `json.Unmarshal`) are embedded after the standard
  library's sources, for a Unix target. In `filepath.Match`, `matchChunk` goes on
  over a chunk after the match has failed in it and reports the chunk if it is
  malformed; `Match` does not read the chunks after the one that failed.
* A loop of the Go source is a recursive function with a `fuel` argument, started with
  a bound on the number of its turns (the length of its input); the sections on fuel
  below prove that the result does not depend on the fuel beyond that bound.
* `filepath.Walk` is embedded as the sequence of the entries it visits: `Walk` calls the
  callback on each entry in order and stops at the first error.
-/

namespace S3Jekyll

/-! ## Strings and errors -/

/-- A Go string: an immutable sequence of bytes. -/
abbrev GoString := List UInt8

/-- The bytes of a Lean string, UTF-8 encoded. -/
def str (s : String) : GoString := s.data.flatMap String.utf8EncodeChar

/-- The error values the program can observe. The first four are the package-level
variables of `s3jekyll.go`; `ErrBadPattern` is `filepath.ErrBadPattern`; the
others stand for the errors of `encoding/json` (an `UnmarshalTypeError` with the
kind of the JSON value and the name of the field), of the operating system and
of the S3 client. -/
inductive GoError where
  | ErrMissingAccess
  | ErrMissingSecret
  | ErrMissingBucket
  | ErrMissingFrom
  | ErrBadPattern
  | SyntaxError
  | UnmarshalTypeError (value : String) (field : String)
  | OSError (msg : String)
  | S3Error (msg : String)
  deriving DecidableEq, Repr

/-! ## Config -/

/-- The `Config` struct. `Concurrency` is a Go `uint`; `Ignores` is a `[]string`. -/
structure Config where
  Access : GoString
  Secret : GoString
  Bucket : GoString
  From : GoString
  To : GoString
  Concurrency : Nat
  Ignores : Option (List GoString)
  deriving DecidableEq, Repr

/-- The method `(c *Config) Validate() (bool, error)`. -/
def Config.Validate (c : Config) : Bool × Option GoError :=
  if c.Access = [] then (false, some GoError.ErrMissingAccess)
  else if c.Secret = [] then (false, some GoError.ErrMissingSecret)
  else if c.Bucket = [] then (false, some GoError.ErrMissingBucket)
  else if c.From = [] then (false, some GoError.ErrMissingFrom)
  else (true, none)

/-- The package-level value `BlankConfig = Config{"", "", "", "_site", "", 10, []string{}}`. -/
def BlankConfig : Config :=
  { Access := [], Secret := [], Bucket := [], From := str "_site", To := [],
    Concurrency := 10, Ignores := some [] }

/-! ## `unicode/utf8` -/

/-- The constant `utf8.RuneError`, U+FFFD. -/
def RuneError : Nat := 0xFFFD

/-- A UTF-8 continuation byte, `0x80..0xBF`. -/
def isCont (b : UInt8) : Bool := 0x80 ≤ b.toNat && b.toNat ≤ 0xBF

/-- The function `utf8.DecodeRuneInString`: the first rune of `s` and its width in bytes.
An empty string gives `(RuneError, 0)`, an invalid encoding `(RuneError, 1)`. -/
def DecodeRuneInString (s : GoString) : Nat × Nat :=
  match s with
  | [] => (RuneError, 0)
  | s0 :: rest =>
    let b0 := s0.toNat
    if b0 < 0x80 then (b0, 1)
    else if b0 < 0xC2 then (RuneError, 1)
    else if b0 < 0xE0 then
      match rest with
      | s1 :: _ =>
        if isCont s1 then ((b0 % 0x20) * 0x40 + s1.toNat % 0x40, 2) else (RuneError, 1)
      | [] => (RuneError, 1)
    else if b0 < 0xF0 then
      let lo := if b0 = 0xE0 then 0xA0 else 0x80
      let hi := if b0 = 0xED then 0x9F else 0xBF
      match rest with
      | s1 :: s2 :: _ =>
        if s1.toNat < lo || hi < s1.toNat then (RuneError, 1)
        else if !isCont s2 then (RuneError, 1)
        else ((b0 % 0x10) * 0x1000 + (s1.toNat % 0x40) * 0x40 + s2.toNat % 0x40, 3)
      | _ => (RuneError, 1)
    else if b0 < 0xF5 then
      let lo := if b0 = 0xF0 then 0x90 else 0x80
      let hi := if b0 = 0xF4 then 0x8F else 0xBF
      match rest with
      | s1 :: s2 :: s3 :: _ =>
        if s1.toNat < lo || hi < s1.toNat then (RuneError, 1)
        else if !isCont s2 then (RuneError, 1)
        else if !isCont s3 then (RuneError, 1)
        else ((b0 % 0x08) * 0x40000 + (s1.toNat % 0x40) * 0x1000
                + (s2.toNat % 0x40) * 0x40 + s3.toNat % 0x40, 4)
      | _ => (RuneError, 1)
    else (RuneError, 1)

/-- The loop of `utf8.RuneCountInString`, with the length of the string as fuel. -/
def RuneCountInString.loop : Nat → GoString → Nat
  | 0, _ => 0
  | _, [] => 0
  | fuel + 1, s => 1 + RuneCountInString.loop fuel (s.drop (DecodeRuneInString s).2)

/-- The function `utf8.RuneCountInString`: the number of runes in `s`. -/
def RuneCountInString (s : GoString) : Nat := RuneCountInString.loop s.length s

/-! ## `path/filepath` (Unix) -/

/-- The constant `filepath.Separator` on Unix, the byte of `/`. -/
def Separator : UInt8 := 47

/-- The function `filepath.Base`: the last element of `path`. Trailing separators are
removed first; the empty path gives `.`, a path of separators only gives `/`. -/
def Base (path : GoString) : GoString :=
  if path = [] then str "."
  else
    -- strip trailing slashes
    let path := (path.reverse.dropWhile (fun b => b == Separator)).reverse
    -- find the last element
    let path := (path.reverse.takeWhile (fun b => b != Separator)).reverse
    -- if empty now, it had only slashes
    if path = [] then [Separator] else path

/-- The loop of `filepath.Ext`, over the reversed path: `acc` holds the bytes already
passed, in path order. -/
def Ext.loop : GoString → GoString → GoString
  | [], _ => []
  | b :: rev, acc =>
    if b == Separator then []
    else if b == 46 then b :: acc
    else Ext.loop rev (b :: acc)

/-- The function `filepath.Ext`: the suffix of `path` that begins at the final dot of its
last element, or the empty string when there is no dot. -/
def Ext (path : GoString) : GoString := Ext.loop path.reverse []

/-- The function `getEsc` of `path/filepath/match.go`: one, possibly escaped, character
of a character class, and the rest of the chunk. -/
def getEsc (chunk : GoString) : Except GoError (Nat × GoString) :=
  match chunk with
  | [] => .error .ErrBadPattern
  | c :: rest =>
    if c == 45 || c == 93 then .error .ErrBadPattern   -- a dash or a closing bracket
    else
      let chunk := if c == 92 then rest else chunk       -- a backslash
      if chunk = [] then .error .ErrBadPattern
      else
        let (r, n) := DecodeRuneInString chunk
        if r = RuneError ∧ n = 1 then .error .ErrBadPattern
        else
          let nchunk := chunk.drop n
          if nchunk = [] then .error .ErrBadPattern
          else .ok (r, nchunk)

/-- The range loop of `matchChunk`: parses the ranges of a character class up to its
closing bracket and tells whether the rune `r` lies in one of them. -/
def matchChunk.ranges : Nat → GoString → Nat → Bool → Nat → Except GoError (GoString × Bool)
  | 0, _, _, _, _ => .error .ErrBadPattern
  | fuel + 1, chunk, r, matched, nrange =>
    match chunk, decide (0 < nrange) with
    | 93 :: rest, true => .ok (rest, matched)
    | _, _ =>
      match getEsc chunk with
      | .error e => .error e
      | .ok (lo, chunk) =>
        match chunk with
        | 45 :: rest =>
          match getEsc rest with
          | .error e => .error e
          | .ok (hi, chunk) =>
            matchChunk.ranges fuel chunk r (matched || (decide (lo ≤ r) && decide (r ≤ hi)))
              (nrange + 1)
        | _ =>
          matchChunk.ranges fuel chunk r (matched || (decide (lo ≤ r) && decide (r ≤ lo)))
            (nrange + 1)

/-- The start of a character class, after the opening bracket: whether the class is
negated (it starts with a caret), and the chunk from its first range on. -/
def matchChunk.negated (chunk : GoString) : Bool × GoString :=
  match chunk with
  | 94 :: rest => (true, rest)
  | _ => (false, chunk)

/-- The main loop of `matchChunk`. Once `failed` is set the loop goes on over the chunk,
checking that the pattern is well formed but no longer reading `s`. -/
def matchChunk.loop : Nat → GoString → GoString → Bool → Except GoError (Option GoString)
  | _, [], s, failed => if failed then .ok none else .ok (some s)
  | 0, _ :: _, _, _ => .error .ErrBadPattern
  | fuel + 1, c :: chunk, s, failed =>
    let failed := failed || s.isEmpty
    if c == 91 then
      -- character class: the rune of `s` it is matched against, and the rest of `s`
      let rs := if failed then (0, s) else
        ((DecodeRuneInString s).1, s.drop (DecodeRuneInString s).2)
      -- possibly negated
      let neg := matchChunk.negated chunk
      -- parse all ranges
      match matchChunk.ranges (neg.2.length + 1) neg.2 rs.1 false 0 with
      | .error e => .error e
      | .ok (chunk, matched) =>
        matchChunk.loop fuel chunk rs.2 (failed || (matched == neg.1))
    else if c == 63 then
      -- a question mark
      if failed then matchChunk.loop fuel chunk s failed
      else matchChunk.loop fuel chunk (s.drop (DecodeRuneInString s).2)
        (s.head? == some Separator)
    else if c == 92 then
      -- a backslash, then as the default case
      match chunk with
      | [] => .error .ErrBadPattern
      | c :: chunk =>
        if failed then matchChunk.loop fuel chunk s failed
        else matchChunk.loop fuel chunk (s.drop 1) (s.head? != some c)
    else
      if failed then matchChunk.loop fuel chunk s failed
      else matchChunk.loop fuel chunk (s.drop 1) (s.head? != some c)

/-- The function `matchChunk` of `path/filepath/match.go`: whether `chunk` matches at the
beginning of `s`; `some rest` is the remainder of `s` after the match, `none` is no
match. -/
def matchChunk (chunk s : GoString) : Except GoError (Option GoString) :=
  matchChunk.loop chunk.length chunk s false

/-- The scanning loop of `scanChunk`: the length of the chunk, which ends at the next
star outside a character class. -/
def scanChunk.scan : GoString → Bool → Nat
  | [], _ => 0
  | c :: cs, inrange =>
    if c == 92 then
      match cs with
      | [] => 1
      | _ :: cs => 2 + scanChunk.scan cs inrange
    else if c == 91 then 1 + scanChunk.scan cs true
    else if c == 93 then 1 + scanChunk.scan cs false
    else if c == 42 then (if inrange then 1 + scanChunk.scan cs inrange else 0)
    else 1 + scanChunk.scan cs inrange

/-- The function `scanChunk` of `path/filepath/match.go`: whether the pattern starts with
stars, the chunk that follows them, and the rest of the pattern. -/
def scanChunk (pattern : GoString) : Bool × GoString × GoString :=
  let star := pattern.head? == some 42
  let pattern := pattern.dropWhile (fun b => b == 42)
  let i := scanChunk.scan pattern false
  (star, pattern.take i, pattern.drop i)

/-- What the star loop of `Match` ends with. -/
inductive StarResult where
  | found (t : GoString)
  | failed (err : GoError)
  | exhausted

/-- The star loop of `Match`: looks for a match of `chunk` after skipping `i + 1` bytes of
`name`, for `i = 0, 1, ...`; a separator is never skipped. `last` says that the
chunk is the last one of the pattern, in which case the match has to exhaust the name. -/
def Match.star (chunk : GoString) ( last : Bool) : GoString → StarResult
  | [] => .exhausted
  | b :: name =>
    if b == Separator then .exhausted
    else
      match matchChunk chunk name with
      | .ok (some t) => if last && !t.isEmpty then Match.star chunk last name else .found t
      | .error e => .failed e
      | .ok none => Match.star chunk last name

/-- The pattern loop of `Match`. When a chunk does not match, at the current position
or behind a star, the loop returns false with no error: the chunks after it are
not read, so that a malformed chunk among them is not reported. -/
def Match.loop : Nat → GoString → GoString → Bool × Option GoError
  | _, [], name => (name.isEmpty, none)
  | 0, _ :: _, _ => (false, some .ErrBadPattern)
  | fuel + 1, pattern, name =>
    let star := (scanChunk pattern).1
    let chunk := (scanChunk pattern).2.1
    let pattern := (scanChunk pattern).2.2
    if star && chunk.isEmpty then
      -- a trailing star matches the rest of the string unless it has a separator
      (!name.contains Separator, none)
    else
      -- look for a match at the current position
      match matchChunk chunk name with
      | .error e => (false, some e)
      | .ok r =>
        -- the last chunk has to exhaust the name
        match r.filter (fun t => t.isEmpty || !pattern.isEmpty) with
        | some t => Match.loop fuel pattern t
        | none =>
          match (if star then Match.star chunk pattern.isEmpty name else .exhausted) with
          | .found t => Match.loop fuel pattern t
          | .failed e => (false, some e)
          | .exhausted => (false, none)

/-- The function `filepath.Match`: whether `name` matches the shell pattern `pattern`
(star, question mark, character classes, backslash escapes; the match is of the
whole name). The error is `ErrBadPattern` when a chunk that the match reaches is
malformed. -/
def Match (pattern name : GoString) : Bool × Option GoError :=
  Match.loop pattern.length pattern name

/-! ## `strings` -/

/-- The function `strings.Index`: the index of the first instance of `substr` in `s`, or
`-1` if `substr` is not present in `s`. -/
def Index : GoString → GoString → Int
  | [], substr => if substr = [] then 0 else -1
  | b :: s, substr =>
    if substr.isPrefixOf (b :: s) then 0
    else if Index s substr < 0 then -1
    else Index s substr + 1

/-- The loop of `strings.Count` for a non-empty `substr`, with fuel. -/
def Count.loop : Nat → GoString → GoString → Nat
  | 0, _, _ => 0
  | fuel + 1, s, substr =>
    if Index s substr < 0 then 0
    else 1 + Count.loop fuel (s.drop ((Index s substr).toNat + substr.length)) substr

/-- The function `strings.Count`: the number of non-overlapping instances of `substr` in
`s`; for an empty `substr`, one more than the number of runes of `s`. -/
def Count (s substr : GoString) : Nat :=
  if substr = [] then RuneCountInString s + 1
  else Count.loop (s.length + 1) s substr

/-- The replacement loop of `strings.Replace`: `n` replacements are still to be made in
`rest`, the part of the string from `start` on; `first` tells the first iteration. -/
def Replace.loop (old new : GoString) : Nat → Bool → GoString → GoString
  | 0, _, rest => rest
  | n + 1, first, rest =>
    let j : Nat :=
      if old = [] then (if first then 0 else (DecodeRuneInString rest).2)
      else (Index rest old).toNat
    rest.take j ++ new ++ Replace.loop old new n false (rest.drop (j + old.length))

/-- The function `strings.Replace`: a copy of `s` with the first `n` non-overlapping
instances of `old` replaced by `new`; a negative `n` puts no limit on the number
of replacements. -/
def Replace (s old new : GoString) (n : Int) : GoString :=
  if old = new ∨ n = 0 then s
  else
    let m := Count s old
    if m = 0 then s
    else
      let n : Nat := if n < 0 ∨ (m : Int) < n then m else n.toNat
      Replace.loop old new n true s

/-! ## The ignore list -/

/-- The loop of `Config.Ignore` over the patterns of `c.Ignores`. -/
def Config.Ignore.loop (path : GoString) : List GoString → Bool × Option GoError
  | [] => (false, none)
  | ignore :: rest =>
    match Match ignore (Base path) with
    | (_, some err) => (false, some err)
    | (true, none) => (true, none)
    | (false, none) => Config.Ignore.loop path rest

/-- The method `(c *Config) Ignore(path string) (bool, error)`. Ranging over a `nil` slice
runs the body no time. -/
def Config.Ignore (c : Config) (path : GoString) : Bool × Option GoError :=
  Config.Ignore.loop path (c.Ignores.getD [])

/-! ## The world of the upload -/

/-- What the program reads of an `os.FileInfo`. -/
structure FileInfo where
  Size : Nat
  IsDir : Bool
  deriving DecidableEq, Repr

/-- The constant `s3.PublicRead`. -/
def PublicRead : GoString := str "public-read"

/-- The arguments of one call `bucket.PutReader(path, r, length, contType, perm)`; the
reader is named by the local file it reads. -/
structure PutCall where
  key : GoString
  file : GoString
  length : Nat
  contType : GoString
  perm : GoString
  deriving DecidableEq, Repr

/-- The outcomes of the calls `PutFile` makes outside the program: `os.Stat`, `os.Open`,
`mime.TypeByExtension` and `(*s3.Bucket).PutReader`. -/
structure World where
  Stat : GoString → Except GoError FileInfo
  Open : GoString → Option GoError
  TypeByExtension : GoString → GoString
  PutReader : PutCall → Option GoError

/-- The effects of a run, in order: the calls of `bucket.PutReader` and the lines printed
by `fmt.Println`. The fields `skipped` and `failed` are ghost fields, the program
keeps no such record: they list the files for which the walker callback found a
matching ignore pattern, and the files whose `PutFile` returned an error. -/
structure Log where
  puts : List PutCall
  stdout : List GoString
  skipped : List GoString
  failed : List (GoString × GoError)
  deriving DecidableEq, Repr

/-- The log of a run that has not started. -/
def Log.empty : Log := { puts := [], stdout := [], skipped := [], failed := [] }

/-- The arguments of the call of `bucket.PutReader` in `PutFile`, for the file at `path`
whose `os.Stat` is `stat`: the key is `config.To` followed by the path with one
`config.From` replaced by nothing (`strings.Replace(path, config.From, "", 1)`). -/
def PutFile.call (w : World) (config : Config) (path : GoString) (stat : FileInfo) : PutCall :=
  { key := config.To ++ Replace path config.From [] 1,
    file := path,
    length := stat.Size,
    contType := w.TypeByExtension (Ext path),
    perm := PublicRead }

/-- The function `PutFile(bucket, config, path)`. -/
def PutFile (w : World) (config : Config) (path : GoString) (log : Log) :
    Option GoError × Log :=
  match w.Stat path with
  | .error err => (some err, log)
  | .ok stat =>
    match w.Open path with
    | some err => (some err, log)
    | none =>
      let call := PutFile.call w config path stat
      let log := { log with puts := log.puts ++ [call] }
      match w.PutReader call with
      | some err => (some err, log)
      | none => (none, log)

/-- The callback returned by `S3Walker(bucket, config)`, applied to `path` and `info`; the
callback does not read its third argument `inErr`. -/
def S3Walker (w : World) (config : Config) (path : GoString) (info : FileInfo) (log : Log) :
    Option GoError × Log :=
  if info.IsDir then (none, log)
  else
    match config.Ignore path with
    | (_, some err) => (some err, log)
    | (ignore, none) =>
      if ignore == false then
        match PutFile w config path log with
        | (some err, log) => (some err, { log with failed := log.failed ++ [(path, err)] })
        | (none, log) => (none, { log with stdout := log.stdout ++ [path] })
      else (none, { log with skipped := log.skipped ++ [path] })

/-- One entry visited by `filepath.Walk`: the path handed to the callback and its
`os.FileInfo`. -/
structure Entry where
  path : GoString
  info : FileInfo
  deriving DecidableEq, Repr

/-- The part of `filepath.Walk(config.From, S3Walker(b, config))` that drives the callback:
`entries` are the entries of the tree in the order `Walk` visits them. `Walk` calls
the callback on each and stops at the first call that returns an error, which it
returns. (The callback never returns `filepath.SkipDir`.) -/
def Walk (w : World) (config : Config) : List Entry → Log → Option GoError × Log
  | [], log => (none, log)
  | e :: entries, log =>
    match S3Walker w config e.path e.info log with
    | (some err, log) => (some err, log)
    | (none, log) => Walk w config entries log

/-! ## `encoding/json`: encoding a `Config` -/

/-- The digits of `hex` in `encoding/json`. -/
def hexDigit (n : Nat) : UInt8 :=
  if n < 10 then UInt8.ofNat (48 + n) else UInt8.ofNat (87 + n)

/-- The table `htmlSafeSet`: the ASCII bytes that a JSON string holds without escaping. -/
def htmlSafe (b : UInt8) : Bool :=
  0x20 ≤ b.toNat && b.toNat < 0x80 && b != 34 && b != 92 && b != 60 && b != 62 && b != 38

/-- The loop of `appendString` (with `escapeHTML` set): the body of the JSON string
literal for `src`. -/
def appendString.loop : Nat → GoString → GoString
  | _, [] => []
  | 0, _ :: _ => []
  | fuel + 1, b :: src =>
    if b.toNat < 0x80 then
      (if htmlSafe b then [b]
        else if b == 92 || b == 34 then [92, b]
        else if b == 8 then str "\\b"
        else if b == 12 then str "\\f"
        else if b == 10 then str "\\n"
        else if b == 13 then str "\\r"
        else if b == 9 then str "\\t"
        else str "\\u00" ++ [hexDigit (b.toNat / 16), hexDigit (b.toNat % 16)])
        ++ appendString.loop fuel src
    else
      let (c, size) := DecodeRuneInString (b :: src)
      if c = RuneError ∧ size = 1 then
        str "\\ufffd" ++ appendString.loop fuel src
      else if c = 0x2028 ∨ c = 0x2029 then
        str "\\u202" ++ [hexDigit (c % 16)] ++ appendString.loop fuel ((b :: src).drop size)
      else
        (b :: src).take size ++ appendString.loop fuel ((b :: src).drop size)

/-- The function `appendString` of `encoding/json`: `src` as a JSON string literal. -/
def appendString (src : GoString) : GoString :=
  [34] ++ appendString.loop src.length src ++ [34]

/-- The function `json.Marshal` at a `Config`, by the struct's field tags: the fields
`access`, `secret`, `bucket` and `from` always, `to` and `ignores` unless empty
(`omitempty`), and never `Concurrency` (tag `-`). -/
def Marshal (c : Config) : GoString :=
  str "\x7b" ++ str "\"access\":" ++ appendString c.Access
    ++ str ",\"secret\":" ++ appendString c.Secret
    ++ str ",\"bucket\":" ++ appendString c.Bucket
    ++ str ",\"from\":" ++ appendString c.From
    ++ (if c.To = [] then [] else str ",\"to\":" ++ appendString c.To)
    ++ (match c.Ignores.getD [] with
        | [] => []
        | ignore :: rest =>
          str ",\"ignores\":[" ++ appendString ignore
            ++ rest.flatMap (fun i => str "," ++ appendString i) ++ str "]")
    ++ str "\x7d"

/-- The function `appendNewline` of `encoding/json`. -/
def appendNewline (pfx indent : GoString) (depth : Nat) : GoString :=
  [10] ++ pfx ++ (List.replicate depth indent).flatten

/-- The loop of `json.Indent` over the bytes of a valid JSON text. `inString` and `esc`
follow the string literals, whose bytes are copied unchanged; `needIndent` delays
the indent after an opening bracket, so that an empty object or array stays on one
line. -/
def Indent.loop (pfx indent : GoString) : GoString → Bool → Bool → Bool → Nat → GoString
  | [], _, _, _, _ => []
  | c :: src, inString, esc, needIndent, depth =>
    if inString then
      c :: Indent.loop pfx indent src (esc || c != 34) (!esc && c == 92) needIndent depth
    else if c == 32 || c == 9 || c == 13 || c == 10 then
      Indent.loop pfx indent src false false needIndent depth
    else
      let closing := c == 125 || c == 93
      let opened := needIndent && !closing
      let depth := if opened then depth + 1 else depth
      let out := if opened then appendNewline pfx indent depth else []
      let needIndent := needIndent && !opened
      if c == 123 || c == 91 then
        out ++ c :: Indent.loop pfx indent src false false true depth
      else if c == 44 then
        out ++ c :: appendNewline pfx indent depth
          ++ Indent.loop pfx indent src false false needIndent depth
      else if c == 58 then
        out ++ c :: 32 :: Indent.loop pfx indent src false false needIndent depth
      else if closing then
        if needIndent then out ++ c :: Indent.loop pfx indent src false false false depth
        else out ++ appendNewline pfx indent (depth - 1)
          ++ c :: Indent.loop pfx indent src false false false (depth - 1)
      else
        out ++ c :: Indent.loop pfx indent src (c == 34) false needIndent depth

/-- The function `json.MarshalIndent` at a `Config`: `Marshal` followed by `json.Indent`. -/
def MarshalIndent (c : Config) (pfx indent : GoString) : GoString :=
  Indent.loop pfx indent (Marshal c) false false false 0

/-! ## `encoding/json`: decoding a `Config` -/

/-- A JSON value, as `json.Unmarshal` reads it: strings and object keys are unquoted, and
of a number only its presence is kept (no field of `Config` takes a number). -/
inductive JSON where
  | null
  | bool (b : Bool)
  | number
  | string (s : GoString)
  | array (elems : List JSON)
  | object (members : List (GoString × JSON))

/-- The function `isSpace` of the JSON scanner. -/
def isSpace (c : UInt8) : Bool := c == 32 || c == 9 || c == 13 || c == 10

/-- The value of a hexadecimal digit, if `c` is one. -/
def hexVal (c : UInt8) : Option Nat :=
  if 48 ≤ c.toNat ∧ c.toNat ≤ 57 then some (c.toNat - 48)
  else if 97 ≤ c.toNat ∧ c.toNat ≤ 102 then some (c.toNat - 87)
  else if 65 ≤ c.toNat ∧ c.toNat ≤ 70 then some (c.toNat - 55)
  else none

/-- The function `getu4` of `encoding/json`: the code unit of a leading `\uXXXX`. -/
def getu4 (s : GoString) : Option Nat :=
  match s with
  | 92 :: 117 :: a :: b :: c :: d :: _ =>
    match hexVal a, hexVal b, hexVal c, hexVal d with
    | some a, some b, some c, some d => some (a * 4096 + b * 256 + c * 16 + d)
    | _, _, _, _ => none
  | _ => none

/-- The function `utf8.EncodeRune`: the UTF-8 encoding of a rune; a surrogate or a value
above `0x10FFFF` is encoded as `RuneError`. -/
def EncodeRune (r : Nat) : GoString :=
  if r ≤ 0x7F then [UInt8.ofNat r]
  else if r ≤ 0x7FF then [UInt8.ofNat (0xC0 + r / 0x40), UInt8.ofNat (0x80 + r % 0x40)]
  else if 0x10FFFF < r ∨ (0xD800 ≤ r ∧ r ≤ 0xDFFF) then [0xEF, 0xBF, 0xBD]
  else if r ≤ 0xFFFF then
    [UInt8.ofNat (0xE0 + r / 0x1000), UInt8.ofNat (0x80 + r / 0x40 % 0x40),
      UInt8.ofNat (0x80 + r % 0x40)]
  else
    [UInt8.ofNat (0xF0 + r / 0x40000), UInt8.ofNat (0x80 + r / 0x1000 % 0x40),
      UInt8.ofNat (0x80 + r / 0x40 % 0x40), UInt8.ofNat (0x80 + r % 0x40)]

/-- The scanner states of a string literal, from after the opening quote: the literal's
raw body and the input after the closing quote, or `none` on a syntax error (a
control character, a bad escape, no closing quote). -/
def scanString : GoString → Option (GoString × GoString)
  | [] => none
  | c :: s =>
    if c == 34 then some ([], s)
    else if c == 92 then
      match s with
      | [] => none
      | e :: s =>
        if e == 98 || e == 102 || e == 110 || e == 114 || e == 116 || e == 92 || e == 47
            || e == 34 then
          (scanString s).map (fun r => (c :: e :: r.1, r.2))
        else if e == 117 then
          match s with
          | h1 :: h2 :: h3 :: h4 :: s =>
            if (hexVal h1).isSome && (hexVal h2).isSome && (hexVal h3).isSome
                && (hexVal h4).isSome then
              (scanString s).map (fun r => (c :: e :: h1 :: h2 :: h3 :: h4 :: r.1, r.2))
            else none
          | _ => none
        else none
    else if c.toNat < 0x20 then none
    else (scanString s).map (fun r => (c :: r.1, r.2))

/-- The loop of `unquoteBytes` of `encoding/json`, over the raw body of a string literal
that the scanner has accepted: escapes are resolved, a surrogate pair is joined, a
lone surrogate and every byte that is not valid UTF-8 become U+FFFD. -/
def unquote.loop : Nat → GoString → GoString
  | _, [] => []
  | 0, _ :: _ => []
  | fuel + 1, c :: s =>
    if c == 92 then
      match s with
      | [] => []
      | e :: s =>
        if e == 117 then
          match getu4 (c :: e :: s) with
          | none => []
          | some rr =>
            let s := s.drop 4
            if 0xD800 ≤ rr ∧ rr < 0xE000 then
              match getu4 s with
              | some rr1 =>
                if rr < 0xDC00 ∧ 0xDC00 ≤ rr1 ∧ rr1 < 0xE000 then
                  EncodeRune ((rr - 0xD800) * 0x400 + (rr1 - 0xDC00) + 0x10000)
                    ++ unquote.loop fuel (s.drop 6)
                else EncodeRune RuneError ++ unquote.loop fuel s
              | none => EncodeRune RuneError ++ unquote.loop fuel s
            else EncodeRune rr ++ unquote.loop fuel s
        else
          (if e == 98 then 8 else if e == 102 then 12 else if e == 110 then 10
            else if e == 114 then 13 else if e == 116 then 9 else e) :: unquote.loop fuel s
    else if c.toNat < 0x80 then c :: unquote.loop fuel s
    else
      EncodeRune (DecodeRuneInString (c :: s)).1
        ++ unquote.loop fuel ((c :: s).drop (DecodeRuneInString (c :: s)).2)

/-- The function `unquoteBytes` of `encoding/json`, on the raw body of a string literal. -/
def unquote (s : GoString) : GoString := unquote.loop s.length s

/-- The scanner states of the digits `0..9`: the input after a possibly empty run of
digits. -/
def scanDigits (s : GoString) : GoString :=
  s.dropWhile (fun c => 48 ≤ c.toNat && c.toNat ≤ 57)

/-- The scanner states of the integer part of a number: a single zero, or a digit from
one to nine and then digits. -/
def scanInt (s : GoString) : Option GoString :=
  match s with
  | [] => none
  | c :: s =>
    if c == 48 then some s
    else if 49 ≤ c.toNat ∧ c.toNat ≤ 57 then some (scanDigits s)
    else none

/-- The scanner states of the fraction of a number, if there is one: a dot and at least
one digit. -/
def scanFrac (s : GoString) : Option GoString :=
  match s with
  | 46 :: s => if scanDigits s = s then none else some (scanDigits s)
  | _ => some s

/-- The scanner state of the minus sign a number may start with. -/
def scanMinus (s : GoString) : GoString :=
  match s with
  | 45 :: s => s
  | _ => s

/-- The scanner state of the sign an exponent may start with. -/
def scanSign (s : GoString) : GoString :=
  match s with
  | 43 :: s => s
  | 45 :: s => s
  | _ => s

/-- The scanner states of the exponent of a number, if there is one: the letter e in
either case, a sign or none, and at least one digit. -/
def scanExp (s : GoString) : Option GoString :=
  match s with
  | [] => some s
  | c :: t =>
    if c == 101 || c == 69 then
      if scanDigits (scanSign t) = scanSign t then none else some (scanDigits (scanSign t))
    else some s

/-- The scanner states of a number, from its first byte: the input after the number, or
`none` on a syntax error. -/
def scanNumber (s : GoString) : Option GoString :=
  ((scanInt (scanMinus s)).bind scanFrac).bind scanExp

/-- The constant `maxNestingDepth` of the JSON scanner. -/
def maxNestingDepth : Nat := 10000

mutual

/-- The scanner and decoder at the beginning of a value: the value and the input after
it, or `none` on a syntax error. `depth` is the number of open arrays and objects. -/
def parseValue : Nat → Nat → GoString → Option (JSON × GoString)
  | 0, _, _ => none
  | fuel + 1, depth, s =>
    match s.dropWhile isSpace with
    | [] => none
    | c :: s =>
      if c == 123 then
        if maxNestingDepth < depth + 1 then none
        else
          match s.dropWhile isSpace with
          | 125 :: s => some (.object [], s)
          | s => (parseMembers fuel (depth + 1) s).map (fun r => (.object r.1, r.2))
      else if c == 91 then
        if maxNestingDepth < depth + 1 then none
        else
          match s.dropWhile isSpace with
          | 93 :: s => some (.array [], s)
          | s => (parseElems fuel (depth + 1) s).map (fun r => (.array r.1, r.2))
      else if c == 34 then
        (scanString s).map (fun r => (.string (unquote r.1), r.2))
      else if c == 45 || (48 ≤ c.toNat && c.toNat ≤ 57) then
        (scanNumber (c :: s)).map (fun r => (.number, r))
      else if (str "true").isPrefixOf (c :: s) then some (.bool true, s.drop 3)
      else if (str "false").isPrefixOf (c :: s) then some (.bool false, s.drop 4)
      else if (str "null").isPrefixOf (c :: s) then some (.null, s.drop 3)
      else none

/-- The elements of an array, from the beginning of an element, up to the closing
bracket. -/
def parseElems : Nat → Nat → GoString → Option (List JSON × GoString)
  | 0, _, _ => none
  | fuel + 1, depth, s =>
    match parseValue fuel depth s with
    | none => none
    | some (v, s) =>
      match s.dropWhile isSpace with
      | 44 :: s => (parseElems fuel depth s).map (fun r => (v :: r.1, r.2))
      | 93 :: s => some ([v], s)
      | _ => none

/-- The members of an object, from the beginning of a key, up to the closing brace. -/
def parseMembers : Nat → Nat → GoString → Option (List (GoString × JSON) × GoString)
  | 0, _, _ => none
  | fuel + 1, depth, s =>
    match s with
    | 34 :: s =>
      match scanString s with
      | none => none
      | some (key, s) =>
        match s.dropWhile isSpace with
        | 58 :: s =>
          match parseValue fuel depth s with
          | none => none
          | some (v, s) =>
            match s.dropWhile isSpace with
            | 44 :: s =>
              (parseMembers fuel depth (s.dropWhile isSpace)).map
                (fun r => ((unquote key, v) :: r.1, r.2))
            | 125 :: s => some ([(unquote key, v)], s)
            | _ => none
        | _ => none
    | _ => none

end

/-- The function `checkValid` of `encoding/json` together with the reading of the value:
the JSON value of `data`, or `none` when `data` is not one JSON value between
optional white space. -/
def parseJSON (data : GoString) : Option JSON :=
  match parseValue (2 * data.length + 2) 0 data with
  | some (v, rest) => if rest.dropWhile isSpace = [] then some v else none
  | none => none

/-- The fields of `Config` that have a JSON name. -/
inductive Field where
  | Access | Secret | Bucket | From | To | Ignores
  deriving DecidableEq, Repr

/-- The JSON name of a field, from its struct tag. -/
def Field.name : Field → String
  | .Access => "access"
  | .Secret => "secret"
  | .Bucket => "bucket"
  | .From => "from"
  | .To => "to"
  | .Ignores => "ignores"

/-- All the fields, in the order of the struct. -/
def Field.all : List Field := [.Access, .Secret, .Bucket, .From, .To, .Ignores]

/-- The loop of `foldName` of `encoding/json`: ASCII letters go to upper case; of the other
runes, the long s (U+017F) and the Kelvin sign (U+212A) fold to the letters S and K.
Every other rune folds to a rune outside ASCII and is kept as it is here, which makes
no difference when the result is compared with the folded name of a field. -/
def foldName.loop : Nat → GoString → GoString
  | _, [] => []
  | 0, _ :: _ => []
  | fuel + 1, c :: s =>
    if c.toNat < 0x80 then
      (if 97 ≤ c.toNat ∧ c.toNat ≤ 122 then UInt8.ofNat (c.toNat - 32) else c)
        :: foldName.loop fuel s
    else
      let (r, n) := DecodeRuneInString (c :: s)
      (if r = 0x17F then [83] else if r = 0x212A then [75] else (c :: s).take n)
        ++ foldName.loop fuel ((c :: s).drop n)

/-- The function `foldName` of `encoding/json`, as far as field names in ASCII go. -/
def foldName (s : GoString) : GoString := foldName.loop s.length s

/-- The field an object key selects: the field of that exact name, else the field whose
name is equal to the key under case folding. -/
def fieldOf (key : GoString) : Option Field :=
  match Field.all.find? (fun f => str f.name == key) with
  | some f => some f
  | none => Field.all.find? (fun f => foldName (str f.name) == foldName key)

/-- The method `saveError` of the decoder: the first error is the one reported. -/
def saveError (saved : Option GoError) (err : GoError) : Option GoError :=
  match saved with
  | some e => some e
  | none => some err

/-- The kind of a JSON value, as named in an `UnmarshalTypeError`. -/
def JSON.kind : JSON → String
  | .null => "null"
  | .bool _ => "bool"
  | .number => "number"
  | .string _ => "string"
  | .array _ => "array"
  | .object _ => "object"

/-- Decoding of a JSON value into a field of type `string` that holds `old`: a string is
stored, `null` leaves the field as it is, any other value is a type error and leaves
the field as it is. -/
def decodeString (field : String) (v : JSON) (old : GoString) (saved : Option GoError) :
    GoString × Option GoError :=
  match v with
  | .string s => (s, saved)
  | .null => (old, saved)
  | v => (old, saveError saved (.UnmarshalTypeError v.kind field))

/-- Decoding of the elements of an array into a `[]string`: the element of index `i` is
decoded into the element of index `i` of the slice `old` the field held, or into
an empty string when `old` is shorter. (The bytes a shorter `old` may still have
beyond its length, within its capacity, are not part of the embedding.) -/
def decodeElems (field : String) : List JSON → List GoString → Option GoError →
    List GoString × Option GoError
  | [], _, saved => ([], saved)
  | v :: vs, old, saved =>
    let r := decodeString field v (old.headD []) saved
    let rs := decodeElems field vs old.tail r.2
    (r.1 :: rs.1, rs.2)

/-- Decoding of a JSON value into a field of type `[]string` that holds `old`: an array
gives a non-nil slice of its elements, `null` the nil slice, any other value is a
type error. -/
def decodeSlice (field : String) (v : JSON) (old : Option (List GoString))
    (saved : Option GoError) : Option (List GoString) × Option GoError :=
  match v with
  | .array elems =>
    let r := decodeElems field elems (old.getD []) saved
    (some r.1, r.2)
  | .null => (none, saved)
  | v => (old, saveError saved (.UnmarshalTypeError v.kind field))

/-- Decoding of one member of an object into the `Config`: a key that selects no field is
skipped with its value. -/
def decodeMember (acc : Config × Option GoError) (m : GoString × JSON) :
    Config × Option GoError :=
  let c := acc.1
  match fieldOf m.1 with
  | none => acc
  | some .Access =>
    let r := decodeString "access" m.2 c.Access acc.2; ({ c with Access := r.1 }, r.2)
  | some .Secret =>
    let r := decodeString "secret" m.2 c.Secret acc.2; ({ c with Secret := r.1 }, r.2)
  | some .Bucket =>
    let r := decodeString "bucket" m.2 c.Bucket acc.2; ({ c with Bucket := r.1 }, r.2)
  | some .From =>
    let r := decodeString "from" m.2 c.From acc.2; ({ c with From := r.1 }, r.2)
  | some .To =>
    let r := decodeString "to" m.2 c.To acc.2; ({ c with To := r.1 }, r.2)
  | some .Ignores =>
    let r := decodeSlice "ignores" m.2 c.Ignores acc.2; ({ c with Ignores := r.1 }, r.2)

/-- The function `json.Unmarshal(data, c)` for `c` a non-nil `*Config`: the `Config` after
the call and the error returned. A syntax error leaves the `Config` untouched; a
type error is reported after the rest of the value has been decoded. -/
def Unmarshal (data : GoString) (c : Config) : Config × Option GoError :=
  match parseJSON data with
  | none => (c, some .SyntaxError)
  | some (.object members) => members.foldl decodeMember (c, none)
  | some .null => (c, none)
  | some v => (c, some (.UnmarshalTypeError v.kind ""))

/-! ## The config file -/

/-- The calls of the operating system the config file goes through. -/
inductive Syscall where
  | Stat | Open | Create | ReadFile | WriteFile
  deriving DecidableEq, Repr

/-- The file system the config file lives in: the working directory (or the error of
`os.Getwd`), the content of each file that exists, and the calls that fail for a
reason other than a file that does not exist (a permission, an I/O error). -/
structure FS where
  Getwd : Except GoError GoString
  files : GoString → Option GoString
  fault : Syscall → GoString → Option GoError

/-- The error of a call on a file that does not exist. -/
def ErrNotExist : GoError := .OSError "no such file or directory"

/-- The file system after `data` is written to the file at `path`. -/
def FS.write (fs : FS) (path data : GoString) : FS :=
  { fs with files := fun p => if p = path then some data else fs.files p }

/-- The struct `ConfigFile`. `File` is `nil` or an `*os.File`, named by its path. -/
structure ConfigFile where
  Path : GoString
  File : Option GoString
  Config : Option Config

/-- The zero value of `Config`, as `new(Config)` allocates it. -/
def Config.zero : Config :=
  { Access := [], Secret := [], Bucket := [], From := [], To := [], Concurrency := 0,
    Ignores := none }

/-- The method `(c *ConfigFile) setPath(to string) error`. -/
def ConfigFile.setPath (fs : FS) (c : ConfigFile) (env : GoString) :
    Option GoError × ConfigFile :=
  match fs.Getwd with
  | .error err => (some err, c)
  | .ok pwd => (none, { c with Path := pwd ++ str "/." ++ env ++ str ".s3.json" })

/-- The method `(c *ConfigFile) exists() (bool, error)`. -/
def ConfigFile.exists (fs : FS) (c : ConfigFile) : Bool × Option GoError :=
  match fs.fault .Stat c.Path with
  | some err => (false, some err)
  | none => ((fs.files c.Path).isSome, none)

/-- The method `(c *ConfigFile) parse() error`. -/
def ConfigFile.parse (fs : FS) (c : ConfigFile) : Option GoError × ConfigFile :=
  match fs.fault .ReadFile c.Path, fs.files c.Path with
  | some err, _ => (some err, c)
  | none, none => (some ErrNotExist, c)
  | none, some b =>
    let r := Unmarshal b Config.zero
    (r.2, { c with Config := some r.1 })

/-- The method `(c *ConfigFile) open() error`. The error of `c.parse()` is not read. -/
def ConfigFile.open (fs : FS) (c : ConfigFile) : Option GoError × ConfigFile :=
  match fs.fault .Open c.Path, fs.files c.Path with
  | some err, _ => (some err, c)
  | none, none => (some ErrNotExist, c)
  | none, some _ =>
    let c := { c with File := some c.Path }
    (none, (c.parse fs).2)

/-- The method `(c *ConfigFile) createBlank() error`. -/
def ConfigFile.createBlank (fs : FS) (c : ConfigFile) : Option GoError × FS :=
  let b := MarshalIndent BlankConfig [] (str "    ")
  match fs.fault .WriteFile c.Path with
  | some err => (some err, fs)
  | none => (none, fs.write c.Path b)

/-- The method `(c *ConfigFile) create() error`. The error of `c.createBlank()` is not
read. -/
def ConfigFile.create (fs : FS) (c : ConfigFile) : Option GoError × ConfigFile × FS :=
  match fs.fault .Create c.Path with
  | some err => (some err, c, fs)
  | none =>
    let fs := fs.write c.Path []
    let c := { c with File := some c.Path }
    (none, c, (c.createBlank fs).2)

/-- The method `(c *ConfigFile) OpenOrCreate(to string) (exists bool, err error)`; the
final `c.File.Close()` changes nothing that is embedded. -/
def ConfigFile.OpenOrCreate (fs : FS) (c : ConfigFile) (env : GoString) :
    (Bool × Option GoError) × ConfigFile × FS :=
  match c.setPath fs env with
  | (some err, c) => ((false, some err), c, fs)
  | (none, c) =>
    match c.exists fs with
    | (ex, some err) => ((ex, some err), c, fs)
    | (true, none) =>
      let r := c.open fs
      ((true, r.1), r.2, fs)
    | (false, none) =>
      let r := c.create fs
      ((false, r.1), r.2.1, r.2.2)

/-- A file system with the working directory `/w` and the one file
`/w/.production.s3.json` of content `data`, where no call fails. -/
def FS.single (data : GoString) : FS :=
  { Getwd := .ok (str "/w"),
    files := fun p => if p = str "/w/.production.s3.json" then some data else none,
    fault := fun _ _ => none }

/-- A `ConfigFile` as `new(ConfigFile)` allocates it. -/
def ConfigFile.new : ConfigFile := { Path := [], File := none, Config := none }


/-! ## Scenarios

Concrete configurations, worlds and trees at which the theorems below are evaluated. -/

/-- Patterns and names with the result of `filepath.Match`: the table of the tests of
the Go standard library, and the patterns of the scenarios below. -/
def Match.table : List (String × String × Bool × Option GoError) :=
  [("abc", "abc", true, none),
   ("*", "abc", true, none),
   ("*c", "abc", true, none),
   ("a*", "a", true, none),
   ("a*", "abc", true, none),
   ("a*", "ab/c", false, none),
   ("a*/b", "abc/b", true, none),
   ("a*/b", "a/c/b", false, none),
   ("a*b*c*d*e*/f", "axbxcxdxe/f", true, none),
   ("a*b*c*d*e*/f", "axbxcxdxexxx/f", true, none),
   ("a*b*c*d*e*/f", "axbxcxdxe/xxx/f", false, none),
   ("a*b*c*d*e*/f", "axbxcxdxexxx/fff", false, none),
   ("a*b?c*x", "abxbbxdbxebxczzx", true, none),
   ("a*b?c*x", "abxbbxdbxebxczzy", false, none),
   ("ab[c]", "abc", true, none),
   ("ab[b-d]", "abc", true, none),
   ("ab[e-g]", "abc", false, none),
   ("ab[^c]", "abc", false, none),
   ("ab[^b-d]", "abc", false, none),
   ("ab[^e-g]", "abc", true, none),
   ("a\\*b", "a*b", true, none),
   ("a\\*b", "ab", false, none),
   ("a?b", "a☺b", true, none),
   ("a[^a]b", "a☺b", true, none),
   ("a???b", "a☺b", false, none),
   ("a[^a][^a][^a]b", "a☺b", false, none),
   ("[a-ζ]*", "α", true, none),
   ("*[a-ζ]", "A", false, none),
   ("a?b", "a/b", false, none),
   ("a*b", "a/b", false, none),
   ("[\\]a]", "]", true, none),
   ("[\\-]", "-", true, none),
   ("[x\\-]", "x", true, none),
   ("[x\\-]", "-", true, none),
   ("[x\\-]", "z", false, none),
   ("[\\-x]", "x", true, none),
   ("[\\-x]", "-", true, none),
   ("[\\-x]", "a", false, none),
   ("[]a]", "]", false, some .ErrBadPattern),
   ("[-]", "-", false, some .ErrBadPattern),
   ("[x-]", "x", false, some .ErrBadPattern),
   ("[x-]", "-", false, some .ErrBadPattern),
   ("[x-]", "z", false, some .ErrBadPattern),
   ("[-x]", "x", false, some .ErrBadPattern),
   ("[-x]", "-", false, some .ErrBadPattern),
   ("[-x]", "a", false, some .ErrBadPattern),
   ("\\", "a", false, some .ErrBadPattern),
   ("[a-b-c]", "a", false, some .ErrBadPattern),
   ("[", "a", false, some .ErrBadPattern),
   ("[^", "a", false, some .ErrBadPattern),
   ("[^bc", "a", false, some .ErrBadPattern),
   ("a[", "a", false, some .ErrBadPattern),
   ("a[", "ab", false, some .ErrBadPattern),
   ("a[", "x", false, some .ErrBadPattern),
   ("a/b[", "x", false, some .ErrBadPattern),
   ("*x", "xxx", true, none),
   ("*.tmp", "b.tmp", true, none),
   ("*.tmp", "a.txt", false, none),
   ("*.tmp", "c.txt", false, none),
   ("[", "b.tmp", false, some .ErrBadPattern),
   ("x*[", "b.tmp", false, none),
   ("x*[", "x", false, some .ErrBadPattern),
   ("x*[", "xb", false, some .ErrBadPattern)]

/-- Arguments of `strings.Replace` with its result: the table of the tests of the Go
standard library, and the paths of the scenarios below. -/
def Replace.table : List (String × String × String × Int × String) :=
  [("hello", "l", "L", 0, "hello"),
   ("hello", "l", "L", (-1), "heLLo"),
   ("hello", "x", "X", (-1), "hello"),
   ("", "x", "X", (-1), ""),
   ("radar", "r", "<r>", (-1), "<r>ada<r>"),
   ("", "", "<>", (-1), "<>"),
   ("banana", "a", "<>", (-1), "b<>n<>n<>"),
   ("banana", "a", "<>", 1, "b<>nana"),
   ("banana", "a", "<>", 1000, "b<>n<>n<>"),
   ("banana", "an", "<>", (-1), "b<><>a"),
   ("banana", "ana", "<>", (-1), "b<>na"),
   ("banana", "", "<>", (-1), "<>b<>a<>n<>a<>n<>a<>"),
   ("banana", "", "<>", 10, "<>b<>a<>n<>a<>n<>a<>"),
   ("banana", "", "<>", 6, "<>b<>a<>n<>a<>n<>a"),
   ("banana", "", "<>", 5, "<>b<>a<>n<>a<>na"),
   ("banana", "", "<>", 1, "<>banana"),
   ("banana", "a", "a", (-1), "banana"),
   ("banana", "a", "a", 1, "banana"),
   ("☺☻☹", "", "<>", (-1), "<>☺<>☻<>☹<>"),
   ("/site/css/a.css", "/site", "", 1, "/css/a.css"),
   ("src/a/src/b.txt", "src", "", 1, "/a/src/b.txt"),
   ("a.txt", "src", "", 1, "a.txt")]

/-- Paths with their `filepath.Base` and their `filepath.Ext`. -/
def Base.table : List (String × String × String) :=
  [("src/sub/c.txt", "c.txt", ".txt"),
   ("src/sub/", "sub", ""),
   ("///", "/", ""),
   ("", ".", ""),
   ("a.tar.gz", "a.tar.gz", ".gz"),
   ("src/sub.d/c", "c", ""),
   ("/a/b", "b", ""),
   ("abc/def", "def", ""),
   (".", ".", "."),
   ("/.bashrc", ".bashrc", ".bashrc")]

/-- A `Config` whose bucket is the first empty field, with a prefix, a concurrency and an
ignore list. -/
def Config.noBucket : Config :=
  { Access := str "AK", Secret := str "SK", Bucket := [], From := [], To := str "out/",
    Concurrency := 3, Ignores := some [str "*.tmp"] }

/-- A complete `Config` with a concurrency of zero, an empty prefix and a malformed ignore
pattern. -/
def Config.complete : Config :=
  { Access := str "AK", Secret := str "SK", Bucket := str "b", From := str "_site", To := [],
    Concurrency := 0, Ignores := some [str "["] }

/-- A configuration whose first ignore pattern is malformed and whose second matches
every name that ends in `.tmp`. -/
def Config.badThenTmp : Config :=
  { Config.complete with Ignores := some [str "[", str "*.tmp"] }

/-- A world in which every file exists with a size of seven bytes and can be opened, every
extension has the type `text/plain`, and every upload succeeds. -/
def World.allOk : World :=
  { Stat := fun _ => .ok { Size := 7, IsDir := false },
    Open := fun _ => none,
    TypeByExtension := fun _ => str "text/plain",
    PutReader := fun _ => none }

/-- A configuration that uploads the directory `src` under the prefix `out/`, ignoring
the names that end in `.tmp`. -/
def Config.srcToOut : Config :=
  { Access := str "AK", Secret := str "SK", Bucket := str "b", From := str "src",
    To := str "out/", Concurrency := 10, Ignores := some [str "*.tmp"] }

/-- A configuration that uploads the directory `/site` under the prefix `prod`. -/
def Config.siteToProd : Config :=
  { Access := str "AK", Secret := str "SK", Bucket := str "b", From := str "/site",
    To := str "prod", Concurrency := 10, Ignores := none }

/-- A configuration whose first ignore pattern matches every name that ends in `.tmp` and
whose second is malformed. -/
def Config.tmpThenBad : Config :=
  { Config.srcToOut with Ignores := some [str "*.tmp", str "["] }

/-- A configuration whose one ignore pattern `x*[` is malformed in its second chunk, behind
a first chunk that matches only names that start with `x`. -/
def Config.starBad : Config :=
  { Config.srcToOut with Ignores := some [str "x*["] }

/-- A configuration whose first ignore pattern is `x*[` and whose second matches every
name that ends in `.tmp`. -/
def Config.starBadThenTmp : Config :=
  { Config.srcToOut with Ignores := some [str "x*[", str "*.tmp"] }

/-- A world like `World.allOk` in which the upload of the file `src/b.txt` fails. -/
def World.failB : World :=
  { World.allOk with
    PutReader := fun call =>
      if call.file = str "src/b.txt" then some (.S3Error "connection reset") else none }

/-- The entry of a directory. -/
def Entry.dir (path : String) : Entry := { path := str path, info := { Size := 4096, IsDir := true } }

/-- The entry of a regular file. -/
def Entry.file (path : String) : Entry := { path := str path, info := { Size := 7, IsDir := false } }

/-- The tree `src/` with the files `a.txt`, `b.tmp` and `sub/c.txt`, in the lexical order
in which `filepath.Walk("src", ...)` visits it, the root first. -/
def Entry.scenario : List Entry :=
  [Entry.dir "src", Entry.file "src/a.txt", Entry.file "src/b.tmp", Entry.dir "src/sub",
    Entry.file "src/sub/c.txt"]

/-- The tree `src/` with the three files `a.txt`, `b.txt` and `c.txt`. -/
def Entry.threeFiles : List Entry :=
  [Entry.dir "src", Entry.file "src/a.txt", Entry.file "src/b.txt", Entry.file "src/c.txt"]

/-- A file system with the working directory `/w` and no file, where no call fails. -/
def FS.blank : FS :=
  { Getwd := .ok (str "/w"), files := fun _ => none, fault := fun _ _ => none }

/-- A `ConfigFile` whose path is set for the environment `production` in `/w`. -/
def ConfigFile.production : ConfigFile :=
  { ConfigFile.new with Path := str "/w/.production.s3.json" }

/-! ## The loops of `filepath.Match` never run out of fuel

Each loop of the embedding of `filepath.Match` is given the length of the chunk or of
the pattern as fuel and consumes one byte or more in each turn, so that its result is
that of the loop of the Go source. -/

/-- A rune of a string that is not empty is at least one byte wide. -/
theorem DecodeRuneInString_width_pos (s : GoString) (h : s ≠ []) :
    1 ≤ (DecodeRuneInString s).2 := by
  unfold DecodeRuneInString
  split
  · exact absurd rfl h
  · dsimp only
    repeat' split
    all_goals simp

/-- The function `getEsc` consumes at least one byte of the chunk. -/
theorem getEsc_length (chunk rest : GoString) (r : Nat)
    (h : getEsc chunk = .ok (r, rest)) : rest.length < chunk.length := by
  unfold getEsc at h
  split at h
  · simp at h
  · rename_i c tl
    dsimp only at h
    split_ifs at h with h1 h2 h3 h4
    all_goals
      simp only [Except.ok.injEq, Prod.mk.injEq] at h
      rw [← h.2]
      simp only [List.length_drop, List.length_cons]
    · have := DecodeRuneInString_width_pos tl h3
      have := List.length_pos.2 h3
      omega
    · have := DecodeRuneInString_width_pos (c :: tl) (by simp)
      omega

/-- The range loop of `matchChunk` consumes at least one byte of the chunk. -/
theorem ranges_length (fuel : Nat) (chunk rest : GoString) (r : Nat) (m b : Bool) (n : Nat)
    (h : matchChunk.ranges fuel chunk r m n = .ok (rest, b)) :
    rest.length < chunk.length := by
  induction fuel generalizing chunk m n with
  | zero => simp [matchChunk.ranges] at h
  | succ fuel ih =>
    unfold matchChunk.ranges at h
    split at h
    · simp only [Except.ok.injEq, Prod.mk.injEq] at h
      rw [← h.1]; simp
    · split at h
      · simp at h
      · rename_i lo chunk1 hesc
        have h1 := getEsc_length _ _ _ hesc
        split at h
        · rename_i tl
          split at h
          · simp at h
          · rename_i hi chunk2 hesc2
            have h2 := getEsc_length _ _ _ hesc2
            have := ih _ _ _ h
            simp only [List.length_cons] at h1
            omega
        · have := ih _ _ _ h
          omega

/-- The range loop of `matchChunk` does not depend on its fuel, once the fuel exceeds the
length of the chunk. -/
theorem ranges_fuel (fuel fuel' : Nat) (chunk : GoString) (r : Nat) (m : Bool) (n : Nat)
    (h : chunk.length < fuel) (h' : chunk.length < fuel') :
    matchChunk.ranges fuel chunk r m n = matchChunk.ranges fuel' chunk r m n := by
  induction fuel generalizing fuel' chunk m n with
  | zero => omega
  | succ fuel ih =>
    cases fuel' with
    | zero => omega
    | succ fuel' =>
      unfold matchChunk.ranges
      split
      · rfl
      · split
        · rfl
        · rename_i lo chunk1 hesc
          have h1 := getEsc_length _ _ _ hesc
          split
          · rename_i tl
            split
            · rfl
            · rename_i hi chunk2 hesc2
              have h2 := getEsc_length _ _ _ hesc2
              simp only [List.length_cons] at h1
              exact ih _ _ _ _ (by omega) (by omega)
          · exact ih _ _ _ _ (by omega) (by omega)


/-- The caret of a negated class is the only byte that `matchChunk.negated` consumes. -/
theorem negated_length (chunk : GoString) :
    (matchChunk.negated chunk).2.length ≤ chunk.length := by
  unfold matchChunk.negated
  split <;> simp

/-- The main loop of `matchChunk` does not depend on its fuel, once the fuel reaches the
length of the chunk. -/
theorem matchChunk_loop_fuel (fuel fuel' : Nat) (chunk s : GoString) (failed : Bool)
    (h : chunk.length ≤ fuel) (h' : chunk.length ≤ fuel') :
    matchChunk.loop fuel chunk s failed = matchChunk.loop fuel' chunk s failed := by
  induction fuel generalizing fuel' chunk s failed with
  | zero =>
    have : chunk = [] := List.length_eq_zero.1 (by omega)
    subst this
    cases fuel' <;> simp [matchChunk.loop]
  | succ fuel ih =>
    cases chunk with
    | nil => cases fuel' <;> simp [matchChunk.loop]
    | cons c chunk =>
      cases fuel' with
      | zero => simp at h'
      | succ fuel' =>
        simp only [List.length_cons, Nat.add_le_add_iff_right] at h h'
        simp only [matchChunk.loop]
        have hneg := negated_length chunk
        split_ifs
        all_goals try split
        all_goals
          first
          | rfl
          | exact ih _ _ _ _ h h'
          | exact ih _ _ _ _ (by simp at h; omega) (by simp at h'; omega)
          | exact ih _ _ _ _
              (Nat.le_trans (Nat.le_of_lt (ranges_length _ _ _ _ _ _ _ (by assumption)))
                (Nat.le_trans hneg h))
              (Nat.le_trans (Nat.le_of_lt (ranges_length _ _ _ _ _ _ _ (by assumption)))
                (Nat.le_trans hneg h'))

/-- The function `matchChunk` is its loop at any fuel that reaches the length of the chunk. -/
theorem matchChunk_fuel (fuel : Nat) (chunk s : GoString) (h : chunk.length ≤ fuel) :
    matchChunk.loop fuel chunk s false = matchChunk chunk s :=
  matchChunk_loop_fuel fuel chunk.length chunk s false h (Nat.le_refl _)

/-- The chunk of a pattern that does not start with a star is not empty. -/
theorem scan_pos (c : UInt8) (cs : GoString) (h : (c == 42) = false) :
    1 ≤ scanChunk.scan (c :: cs) false := by
  unfold scanChunk.scan
  split_ifs
  · split <;> omega
  all_goals first | omega | simp_all

/-- The function `scanChunk` consumes at least one byte of a pattern that is not empty. -/
theorem scanChunk_length (pattern : GoString) (h : pattern ≠ []) :
    (scanChunk pattern).2.2.length < pattern.length := by
  cases pattern with
  | nil => exact absurd rfl h
  | cons c cs =>
    simp only [scanChunk, List.length_drop, List.length_cons]
    by_cases hc : (c == 42) = true
    · have : ((c :: cs).dropWhile (fun b => b == 42)).length ≤ cs.length := by
        rw [List.dropWhile_cons, if_pos hc]
        exact (List.dropWhile_sublist _).length_le
      omega
    · have hc' : (c == 42) = false := by simpa using hc
      rw [List.dropWhile_cons, if_neg hc]
      have := scan_pos c cs hc'
      simp only [List.length_cons]
      omega

/-- The pattern loop of `Match` does not depend on its fuel, once the fuel reaches the
length of the pattern. -/
theorem Match_loop_fuel (fuel fuel' : Nat) (pattern name : GoString)
    (h : pattern.length ≤ fuel) (h' : pattern.length ≤ fuel') :
    Match.loop fuel pattern name = Match.loop fuel' pattern name := by
  induction fuel generalizing fuel' pattern name with
  | zero =>
    have : pattern = [] := List.length_eq_zero.1 (by omega)
    subst this
    cases fuel' <;> simp [Match.loop]
  | succ fuel ih =>
    cases pattern with
    | nil => cases fuel' <;> simp [Match.loop]
    | cons c cs =>
      cases fuel' with
      | zero => simp at h'
      | succ fuel' =>
        have hl := scanChunk_length (c :: cs) (by simp)
        simp only [Match.loop]
        repeat' split
        all_goals first | rfl | exact ih _ _ _ (by omega) (by omega)

/-- The function `Match` is its pattern loop at any fuel that reaches the length of the
pattern: the loop never runs out of fuel. -/
theorem Match_fuel (fuel : Nat) (pattern name : GoString) (h : pattern.length ≤ fuel) :
    Match.loop fuel pattern name = Match pattern name :=
  Match_loop_fuel fuel pattern.length pattern name h (Nat.le_refl _)

/-! ## The loops of `unicode/utf8` and `encoding/json` never run out of fuel -/

/-- The loop of `utf8.RuneCountInString` does not depend on its fuel, once the fuel
reaches the length of the string. -/
theorem RuneCountInString_loop_fuel (fuel fuel' : Nat) (s : GoString)
    (h : s.length ≤ fuel) (h' : s.length ≤ fuel') :
    RuneCountInString.loop fuel s = RuneCountInString.loop fuel' s := by
  induction fuel generalizing fuel' s with
  | zero =>
    have : s = [] := List.length_eq_zero.1 (by omega)
    subst this
    cases fuel' <;> simp [RuneCountInString.loop]
  | succ fuel ih =>
    cases s with
    | nil => cases fuel' <;> simp [RuneCountInString.loop]
    | cons c s =>
      cases fuel' with
      | zero => simp at h'
      | succ fuel' =>
        have hw := DecodeRuneInString_width_pos (c :: s) (by simp)
        simp only [RuneCountInString.loop]
        congr 1
        exact ih _ _ (by simp only [List.length_drop]; omega)
          (by simp only [List.length_drop]; omega)

/-- The loop of `appendString` does not depend on its fuel, once the fuel reaches the
length of the string. -/
theorem appendString_loop_fuel (fuel fuel' : Nat) (s : GoString)
    (h : s.length ≤ fuel) (h' : s.length ≤ fuel') :
    appendString.loop fuel s = appendString.loop fuel' s := by
  induction fuel generalizing fuel' s with
  | zero =>
    have : s = [] := List.length_eq_zero.1 (by omega)
    subst this
    cases fuel' <;> simp [appendString.loop]
  | succ fuel ih =>
    cases s with
    | nil => cases fuel' <;> simp [appendString.loop]
    | cons c s =>
      cases fuel' with
      | zero => simp at h'
      | succ fuel' =>
        have hw := DecodeRuneInString_width_pos (c :: s) (by simp)
        simp only [List.length_cons] at h h'
        simp only [appendString.loop]
        split_ifs
        all_goals
          congr 1
          exact ih _ _ (by first | omega | (simp only [List.length_drop, List.length_cons]; omega))
            (by first | omega | (simp only [List.length_drop, List.length_cons]; omega))

/-- The loop of `unquoteBytes` does not depend on its fuel, once the fuel reaches the
length of the string. -/
theorem unquote_loop_fuel (fuel fuel' : Nat) (s : GoString)
    (h : s.length ≤ fuel) (h' : s.length ≤ fuel') :
    unquote.loop fuel s = unquote.loop fuel' s := by
  induction fuel generalizing fuel' s with
  | zero =>
    have : s = [] := List.length_eq_zero.1 (by omega)
    subst this
    cases fuel' <;> simp [unquote.loop]
  | succ fuel ih =>
    cases s with
    | nil => cases fuel' <;> simp [unquote.loop]
    | cons c s =>
      cases fuel' with
      | zero => simp at h'
      | succ fuel' =>
        have hw := DecodeRuneInString_width_pos (c :: s) (by simp)
        simp only [List.length_cons] at h h'
        have e1 : ∀ t : GoString, t.length ≤ s.length →
            unquote.loop fuel t = unquote.loop fuel' t :=
          fun t ht => ih _ _ (by omega) (by omega)
        have a1 := e1 s (Nat.le_refl _)
        have a2 := e1 ((c :: s).drop (DecodeRuneInString (c :: s)).2)
          (by simp only [List.length_drop, List.length_cons]; omega)
        simp only [unquote.loop, a1, a2]
        cases s with
        | nil => rfl
        | cons e s =>
          have a3 := e1 s (by simp)
          have a4 := e1 (s.drop 4) (by simp only [List.length_drop, List.length_cons]; omega)
          have a5 := e1 ((s.drop 4).drop 6)
            (by simp only [List.length_drop, List.length_cons]; omega)
          simp only [a3, a4, a5]

/-- The loop of `foldName` does not depend on its fuel, once the fuel reaches the length
of the string. -/
theorem foldName_loop_fuel (fuel fuel' : Nat) (s : GoString)
    (h : s.length ≤ fuel) (h' : s.length ≤ fuel') :
    foldName.loop fuel s = foldName.loop fuel' s := by
  induction fuel generalizing fuel' s with
  | zero =>
    have : s = [] := List.length_eq_zero.1 (by omega)
    subst this
    cases fuel' <;> simp [foldName.loop]
  | succ fuel ih =>
    cases s with
    | nil => cases fuel' <;> simp [foldName.loop]
    | cons c s =>
      cases fuel' with
      | zero => simp at h'
      | succ fuel' =>
        have hw := DecodeRuneInString_width_pos (c :: s) (by simp)
        simp only [List.length_cons] at h h'
        simp only [foldName.loop]
        split_ifs
        all_goals
          congr 1
          exact ih _ _ (by first | omega | (simp only [List.length_drop, List.length_cons]; omega))
            (by first | omega | (simp only [List.length_drop, List.length_cons]; omega))

/-- What `dropWhile` leaves is not longer than the list. -/
theorem dropWhile_length (p : UInt8 → Bool) (s : GoString) :
    (s.dropWhile p).length ≤ s.length := (List.dropWhile_sublist p).length_le

/-- The scanner consumes at least the closing quote of a string literal; by induction on
a bound of the length. -/
theorem scanString_length_aux (n : Nat) : ∀ (s raw rest : GoString), s.length ≤ n →
    scanString s = some (raw, rest) → rest.length < s.length := by
  induction n with
  | zero =>
    intro s raw rest hn h
    have : s = [] := List.length_eq_zero.1 (by omega)
    subst this
    simp [scanString] at h
  | succ n ih =>
    intro s raw rest hn h
    cases s with
    | nil => simp [scanString] at h
    | cons c s =>
      simp only [List.length_cons, Nat.add_le_add_iff_right] at hn
      unfold scanString at h
      split_ifs at h with h1 h2 h3
      · simp only [Option.some.injEq, Prod.mk.injEq] at h
        rw [← h.2]; simp
      · split at h
        · simp at h
        · rename_i e s1
          split_ifs at h with h4 h5
          · simp only [Option.map_eq_some'] at h
            obtain ⟨⟨r1, r2⟩, hr, heq⟩ := h
            simp only [Prod.mk.injEq] at heq
            have := ih _ _ _ (by simp only [List.length_cons] at hn; omega) hr
            rw [← heq.2]
            simp only [List.length_cons]; omega
          · split at h
            · rename_i a1 a2 a3 a4 s2
              split_ifs at h
              simp only [Option.map_eq_some'] at h
              obtain ⟨⟨r1, r2⟩, hr, heq⟩ := h
              simp only [Prod.mk.injEq] at heq
              have := ih _ _ _ (by simp only [List.length_cons] at hn; omega) hr
              rw [← heq.2]
              simp only [List.length_cons]; omega
            · simp at h
      · simp only [Option.map_eq_some'] at h
        obtain ⟨⟨r1, r2⟩, hr, heq⟩ := h
        simp only [Prod.mk.injEq] at heq
        have := ih _ _ _ hn hr
        rw [← heq.2]
        simp only [List.length_cons]; omega

/-- The scanner consumes at least the closing quote of a string literal. -/
theorem scanString_length (s raw rest : GoString) (h : scanString s = some (raw, rest)) :
    rest.length < s.length :=
  scanString_length_aux s.length s raw rest (Nat.le_refl _) h

/-- What follows a run of digits is not longer than the input. -/
theorem scanDigits_length (s : GoString) : (scanDigits s).length ≤ s.length :=
  dropWhile_length _ s


/-- The integer part of a number has at least one digit. -/
theorem scanInt_length (s rest : GoString) (h : scanInt s = some rest) :
    rest.length < s.length := by
  unfold scanInt at h
  split at h
  · simp at h
  · rename_i c t
    have := scanDigits_length t
    split_ifs at h <;> simp only [Option.some.injEq] at h <;> rw [← h] <;>
      simp only [List.length_cons] <;> omega

/-- What follows the fraction of a number is not longer than the input. -/
theorem scanFrac_length (s rest : GoString) (h : scanFrac s = some rest) :
    rest.length ≤ s.length := by
  unfold scanFrac at h
  split at h
  · rename_i t
    have := scanDigits_length t
    split_ifs at h
    simp only [Option.some.injEq] at h
    rw [← h]; simp only [List.length_cons]; omega
  · simp only [Option.some.injEq] at h
    rw [h]

/-- What follows the minus sign of a number is not longer than the input. -/
theorem scanMinus_length (s : GoString) : (scanMinus s).length ≤ s.length := by
  unfold scanMinus
  split <;> first | omega | (simp only [List.length_cons]; omega)

/-- What follows the sign of an exponent is not longer than the input. -/
theorem scanSign_length (s : GoString) : (scanSign s).length ≤ s.length := by
  unfold scanSign
  split <;> first | omega | (simp only [List.length_cons]; omega)

/-- What follows the exponent of a number is not longer than the input. -/
theorem scanExp_length (s rest : GoString) (h : scanExp s = some rest) :
    rest.length ≤ s.length := by
  unfold scanExp at h
  split at h
  · simp only [Option.some.injEq] at h
    rw [h]
  · rename_i c t
    split_ifs at h
    · simp only [Option.some.injEq] at h
      rw [← h]
      have := scanDigits_length (scanSign t)
      have := scanSign_length t
      simp only [List.length_cons]; omega
    · simp only [Option.some.injEq] at h
      rw [h]

/-- The scanner consumes at least one byte of a number. -/
theorem scanNumber_length (s rest : GoString) (h : scanNumber s = some rest) :
    rest.length < s.length := by
  unfold scanNumber at h
  simp only [Option.bind_eq_some] at h
  obtain ⟨r2, ⟨r1, h1, h2⟩, h3⟩ := h
  have l1 := scanInt_length _ _ h1
  have l2 := scanFrac_length _ _ h2
  have l3 := scanExp_length _ _ h3
  have := scanMinus_length s
  omega

/-- The three parsers consume at least one byte of the input. -/
theorem parse_length (fuel : Nat) : ∀ (depth : Nat) (s : GoString),
    (∀ v rest, parseValue fuel depth s = some (v, rest) → rest.length < s.length) ∧
    (∀ vs rest, parseElems fuel depth s = some (vs, rest) → rest.length < s.length) ∧
    (∀ ms rest, parseMembers fuel depth s = some (ms, rest) → rest.length < s.length) := by
  induction fuel with
  | zero =>
    intro depth s
    refine ⟨?_, ?_, ?_⟩ <;> intro a rest h
    · simp [parseValue] at h
    · simp [parseElems] at h
    · simp [parseMembers] at h
  | succ fuel ih =>
    intro depth s
    refine ⟨?_, ?_, ?_⟩ <;> intro a rest h
    · unfold parseValue at h
      have hws := dropWhile_length isSpace s
      split at h
      · simp at h
      · rename_i c s1 heq
        rw [heq] at hws
        simp only [List.length_cons] at hws
        have hws1 := dropWhile_length isSpace s1
        split_ifs at h
        · split at h
          · rename_i s2 heq2
            simp only [Option.some.injEq, Prod.mk.injEq] at h
            rw [heq2] at hws1
            simp only [List.length_cons] at hws1
            rw [← h.2]; omega
          · simp only [Option.map_eq_some'] at h
            obtain ⟨⟨r1, r2⟩, hr, hq⟩ := h
            simp only [Prod.mk.injEq] at hq
            have := (ih (depth + 1) (s1.dropWhile isSpace)).2.2 _ _ hr
            rw [← hq.2]; omega
        · split at h
          · rename_i s2 heq2
            simp only [Option.some.injEq, Prod.mk.injEq] at h
            rw [heq2] at hws1
            simp only [List.length_cons] at hws1
            rw [← h.2]; omega
          · simp only [Option.map_eq_some'] at h
            obtain ⟨⟨r1, r2⟩, hr, hq⟩ := h
            simp only [Prod.mk.injEq] at hq
            have := (ih (depth + 1) (s1.dropWhile isSpace)).2.1 _ _ hr
            rw [← hq.2]; omega
        · simp only [Option.map_eq_some'] at h
          obtain ⟨⟨r1, r2⟩, hr, hq⟩ := h
          simp only [Prod.mk.injEq] at hq
          have := scanString_length _ _ _ hr
          rw [← hq.2]; omega
        · simp only [Option.map_eq_some'] at h
          obtain ⟨r, hr, hq⟩ := h
          simp only [Prod.mk.injEq] at hq
          have := scanNumber_length _ _ hr
          simp only [List.length_cons] at this
          rw [← hq.2]; omega
        all_goals
          simp only [Option.some.injEq, Prod.mk.injEq] at h
          rw [← h.2]
          simp only [List.length_drop]
          omega
    · unfold parseElems at h
      split at h
      · simp at h
      · rename_i v s1 hv
        have l1 := (ih depth s).1 _ _ hv
        have hws := dropWhile_length isSpace s1
        split at h
        · rename_i s2 heq
          rw [heq] at hws
          simp only [List.length_cons] at hws
          simp only [Option.map_eq_some'] at h
          obtain ⟨⟨r1, r2⟩, hr, hq⟩ := h
          simp only [Prod.mk.injEq] at hq
          have := (ih depth s2).2.1 _ _ hr
          rw [← hq.2]; omega
        · rename_i s2 heq
          rw [heq] at hws
          simp only [List.length_cons] at hws
          simp only [Option.some.injEq, Prod.mk.injEq] at h
          rw [← h.2]; omega
        · simp at h
    · unfold parseMembers at h
      split at h
      · rename_i s1
        split at h
        · simp at h
        · rename_i key s2 hk
          have l1 := scanString_length _ _ _ hk
          have hws := dropWhile_length isSpace s2
          split at h
          · rename_i s3 heq
            rw [heq] at hws
            simp only [List.length_cons] at hws
            split at h
            · simp at h
            · rename_i v s4 hv
              have l2 := (ih depth s3).1 _ _ hv
              have hws4 := dropWhile_length isSpace s4
              split at h
              · rename_i s5 heq5
                rw [heq5] at hws4
                simp only [List.length_cons] at hws4
                have hws5 := dropWhile_length isSpace s5
                simp only [Option.map_eq_some'] at h
                obtain ⟨⟨r1, r2⟩, hr, hq⟩ := h
                simp only [Prod.mk.injEq] at hq
                have := (ih depth (s5.dropWhile isSpace)).2.2 _ _ hr
                rw [← hq.2]
                simp only [List.length_cons]; omega
              · rename_i s5 heq5
                rw [heq5] at hws4
                simp only [List.length_cons] at hws4
                simp only [Option.some.injEq, Prod.mk.injEq] at h
                rw [← h.2]
                simp only [List.length_cons]; omega
              · simp at h
          · simp at h
      · simp at h

/-- The three parsers do not depend on their fuel, once the fuel exceeds twice the length
of the input. -/
theorem parse_fuel (fuel : Nat) : ∀ (fuel' depth : Nat) (s : GoString),
    (2 * s.length + 1 ≤ fuel → 2 * s.length + 1 ≤ fuel' →
      parseValue fuel depth s = parseValue fuel' depth s) ∧
    (2 * s.length + 2 ≤ fuel → 2 * s.length + 2 ≤ fuel' →
      parseElems fuel depth s = parseElems fuel' depth s) ∧
    (2 * s.length + 2 ≤ fuel → 2 * s.length + 2 ≤ fuel' →
      parseMembers fuel depth s = parseMembers fuel' depth s) := by
  induction fuel with
  | zero =>
    intro fuel' depth s
    refine ⟨?_, ?_, ?_⟩ <;> intro h <;> omega
  | succ fuel ih =>
    intro fuel' depth s
    cases fuel' with
    | zero => refine ⟨?_, ?_, ?_⟩ <;> intro h h' <;> omega
    | succ fuel' =>
      refine ⟨?_, ?_, ?_⟩ <;> intro h h'
      · unfold parseValue
        have hws := dropWhile_length isSpace s
        split
        · rfl
        · rename_i c s1 heq
          rw [heq] at hws
          simp only [List.length_cons] at hws
          have hws1 := dropWhile_length isSpace s1
          split_ifs
          all_goals try split
          all_goals
            first
            | rfl
            | (congr 1; exact (ih _ _ _).2.2 (by omega) (by omega))
            | (congr 1; exact (ih _ _ _).2.1 (by omega) (by omega))
      · unfold parseElems
        rw [(ih fuel' depth s).1 (by omega) (by omega)]
        split
        · rfl
        · rename_i v s1 hv
          have l1 := (parse_length fuel' depth s).1 _ _ hv
          have hws := dropWhile_length isSpace s1
          split
          · rename_i s2 heq
            rw [heq] at hws
            simp only [List.length_cons] at hws
            congr 1
            exact (ih _ _ _).2.1 (by omega) (by omega)
          · rfl
          · rfl
      · unfold parseMembers
        split
        · rename_i s1
          simp only [List.length_cons] at h h'
          split
          · rfl
          · rename_i key s2 hk
            have l1 := scanString_length _ _ _ hk
            have hws := dropWhile_length isSpace s2
            split
            · rename_i s3 heq
              rw [heq] at hws
              simp only [List.length_cons] at hws
              rw [(ih fuel' depth s3).1 (by omega) (by omega)]
              split
              · rfl
              · rename_i v s4 hv
                have l2 := (parse_length fuel' depth s3).1 _ _ hv
                have hws4 := dropWhile_length isSpace s4
                split
                · rename_i s5 heq5
                  rw [heq5] at hws4
                  simp only [List.length_cons] at hws4
                  have hws5 := dropWhile_length isSpace s5
                  congr 1
                  exact (ih _ _ _).2.2 (by omega) (by omega)
                · rfl
                · rfl
            · rfl
        · rfl

/-- The function `parseJSON` is the parser at any fuel that exceeds twice the length of the
input: the parser never runs out of fuel. -/
theorem parseJSON_fuel (fuel : Nat) (data : GoString) (h : 2 * data.length + 1 ≤ fuel) :
    parseValue fuel 0 data = parseValue (2 * data.length + 2) 0 data :=
  (parse_fuel fuel (2 * data.length + 2) 0 data).1 h (by omega)

/-! ## The embedded library functions on the tests of the library -/

/-- The embedding of `filepath.Match` gives the results of the table. -/
theorem Match_table :
    Match.table.all (fun t => decide (Match (str t.1) (str t.2.1) = t.2.2)) = true := by
  decide!

/-- The embedding of `strings.Replace` gives the results of the table. -/
theorem Replace_table :
    Replace.table.all (fun t =>
      decide (Replace (str t.1) (str t.2.1) (str t.2.2.1) t.2.2.2.1 = str t.2.2.2.2)) = true := by
  decide!

/-- The embeddings of `filepath.Base` and `filepath.Ext` give the results of the table. -/
theorem Base_table :
    Base.table.all (fun t =>
      decide (Base (str t.1) = str t.2.1) && decide (Ext (str t.1) = str t.2.2)) = true := by
  decide!

/-- The embedding of `json.MarshalIndent` on a `Config` with a prefix to escape and two
ignore patterns. -/
theorem MarshalIndent_example :
    MarshalIndent
      { BlankConfig with To := str "a<b\"c\n", Ignores := some [str "*.tmp", str "x:,y"] }
      [] (str "  ")
    = str "\x7b\n  \"access\": \"\",\n  \"secret\": \"\",\n  \"bucket\": \"\",\n  \"from\": \"_site\",\n  \"to\": \"a\\u003cb\\\"c\\n\",\n  \"ignores\": [\n    \"*.tmp\",\n    \"x:,y\"\n  ]\n\x7d" := by
  decide!

/-- The embedding of `json.Unmarshal` on an object with a key in upper case, a number for
a string, a number in an array of strings and a key that is no field: the type error
is the first one, and the rest of the object is decoded. -/
theorem Unmarshal_example :
    Unmarshal
      (str "\x7b\"ACCESS\": \"k\\u00e9\", \"from\": 3, \"ignores\": [\"a\", 1], \"x\": \x7b\"from\": \"y\"\x7d, \"to\": null\x7d")
      Config.zero
    = ({ Config.zero with Access := str "ké", Ignores := some [str "a", []] },
        some (GoError.UnmarshalTypeError "number" "from")) := by
  decide!

/-- The embedding of `json.Unmarshal` on texts that are not JSON. -/
theorem Unmarshal_syntax_errors :
    [str "", str "\x7b", str "\x7b\"a\": 1,\x7d", str "[1, 2", str "\x7b\"a\" 1\x7d",
      str "\"a\\x\"", str "01", str "tru", str "\x7b\x7d x"].all
      (fun data => decide (Unmarshal data Config.zero = (Config.zero, some GoError.SyntaxError)))
      = true := by
  decide!

/-! ## Validation -/

/-- C1. A `Config` with an empty `Access`, `Secret`, `Bucket` or `From` is not valid, and
the error `Validate` returns is the one of the first empty field in the order access,
secret, bucket, from, whatever the other fields hold. -/
theorem Validate_first_missing (c : Config)
    (h : c.Access = [] ∨ c.Secret = [] ∨ c.Bucket = [] ∨ c.From = []) :
    c.Validate.1 = false ∧
    (c.Access = [] → c.Validate.2 = some GoError.ErrMissingAccess) ∧
    (c.Access ≠ [] → c.Secret = [] → c.Validate.2 = some GoError.ErrMissingSecret) ∧
    (c.Access ≠ [] → c.Secret ≠ [] → c.Bucket = [] →
      c.Validate.2 = some GoError.ErrMissingBucket) ∧
    (c.Access ≠ [] → c.Secret ≠ [] → c.Bucket ≠ [] → c.From = [] →
      c.Validate.2 = some GoError.ErrMissingFrom) := by
  unfold Config.Validate
  refine ⟨?_, ?_, ?_, ?_, ?_⟩
  · rcases h with h | h | h | h <;> split_ifs <;> simp_all
  · intro h1; simp [h1]
  · intro h1 h2; simp [h1, h2]
  · intro h1 h2 h3; simp [h1, h2, h3]
  · intro h1 h2 h3 h4; simp [h1, h2, h3, h4]

/-- The bucket is the first empty field of `Config.noBucket`, whose `From` is empty too. -/
theorem Validate_first_missing_witness :
    Config.noBucket.Validate = (false, some GoError.ErrMissingBucket) := by
  have h := Validate_first_missing Config.noBucket (by decide)
  exact Prod.ext h.1 (h.2.2.2.1 (by decide) (by decide) (by decide))

/-- C2. A `Config` whose `Access`, `Secret`, `Bucket` and `From` are all non-empty is valid:
`Validate` returns `(true, nil)`, whatever `To`, `Concurrency` and `Ignores` hold. -/
theorem Validate_complete (c : Config)
    (hA : c.Access ≠ []) (hS : c.Secret ≠ []) (hB : c.Bucket ≠ []) (hF : c.From ≠ []) :
    c.Validate = (true, none) := by
  simp [Config.Validate, hA, hS, hB, hF]

/-- A complete `Config` is valid with a concurrency of zero and a malformed pattern, and
with a nil ignore list. -/
theorem Validate_complete_witness :
    Config.complete.Validate = (true, none)
      ∧ ({ Config.complete with Ignores := none }).Validate = (true, none) :=
  ⟨Validate_complete Config.complete (by decide) (by decide) (by decide) (by decide),
   Validate_complete { Config.complete with Ignores := none }
     (by decide) (by decide) (by decide) (by decide)⟩

/-! ## The ignore list -/

/-- The loop of `Ignore` returns `(true, nil)` exactly when a pattern matches the base name
and `Match` reports no error on the patterns before it. -/
theorem Ignore_loop_true_iff (path : GoString) (l : List GoString) :
    Config.Ignore.loop path l = (true, none) ↔
      ∃ pre p post, l = pre ++ p :: post ∧ Match p (Base path) = (true, none) ∧
        ∀ q ∈ pre, (Match q (Base path)).2 = none := by
  induction l with
  | nil => simp [Config.Ignore.loop]
  | cons a l ih =>
    rw [Config.Ignore.loop]
    rcases hm : Match a (Base path) with ⟨b, e⟩
    cases e with
    | some err =>
      simp only [Prod.mk.injEq, Bool.false_eq_true, false_and, false_iff, not_exists, not_and]
      intro pre p post hl hp
      cases pre with
      | nil =>
        simp only [List.nil_append, List.cons.injEq] at hl
        rw [← hl.1, hm] at hp
        simp at hp
      | cons q pre =>
        simp only [List.cons_append, List.cons.injEq] at hl
        intro hall
        have := hall q (by simp)
        rw [← hl.1, hm] at this
        simp at this
    | none =>
      cases b with
      | true =>
        simp only [true_iff]
        exact ⟨[], a, l, rfl, hm, by simp⟩
      | false =>
        simp only
        rw [ih]
        constructor
        · rintro ⟨pre, p, post, hl, hp, hall⟩
          refine ⟨a :: pre, p, post, by simp [hl], hp, ?_⟩
          intro q hq
          rcases List.mem_cons.1 hq with rfl | hq
          · simp [hm]
          · exact hall q hq
        · rintro ⟨pre, p, post, hl, hp, hall⟩
          cases pre with
          | nil =>
            simp only [List.nil_append, List.cons.injEq] at hl
            rw [← hl.1, hm] at hp
            simp at hp
          | cons q pre =>
            simp only [List.cons_append, List.cons.injEq] at hl
            exact ⟨pre, p, post, hl.2, hp, fun r hr => hall r (List.mem_cons_of_mem _ hr)⟩

/-- The loop of `Ignore` returns an error exactly when `Match` reports it on a pattern
that no matching pattern and no other error comes before. -/
theorem Ignore_loop_error_of (path : GoString) (pre : List GoString) (p : GoString)
    (post : List GoString) (b : Bool) (err : GoError)
    (hpre : ∀ q ∈ pre, Match q (Base path) = (false, none))
    (hp : Match p (Base path) = (b, some err)) :
    Config.Ignore.loop path (pre ++ p :: post) = (false, some err) := by
  induction pre with
  | nil => simp [Config.Ignore.loop, hp]
  | cons q pre ih =>
    have hq := hpre q (by simp)
    simp only [List.cons_append, Config.Ignore.loop, hq]
    exact ih (fun r hr => hpre r (List.mem_cons_of_mem _ hr))

/-- The loop of `Ignore` returns an error only when `Match` reports it on a pattern that
no matching pattern and no other error comes before; the boolean is then false. -/
theorem Ignore_loop_error_elim (path : GoString) (l : List GoString) (r : Bool)
    (err : GoError) (h : Config.Ignore.loop path l = (r, some err)) :
    r = false ∧ ∃ pre p post b, l = pre ++ p :: post ∧
      (∀ q ∈ pre, Match q (Base path) = (false, none)) ∧
      Match p (Base path) = (b, some err) := by
  induction l with
  | nil => simp [Config.Ignore.loop] at h
  | cons a l ih =>
    rw [Config.Ignore.loop] at h
    rcases hm : Match a (Base path) with ⟨b, e⟩
    rw [hm] at h
    cases e with
    | some e1 =>
      simp only [Prod.mk.injEq, Option.some.injEq] at h
      exact ⟨h.1.symm, [], a, l, b, rfl, by simp, by rw [hm, h.2]⟩
    | none =>
      cases b with
      | true => simp at h
      | false =>
        simp only at h
        obtain ⟨hr, pre, p, post, b1, hl, hpre, hp⟩ := ih h
        refine ⟨hr, a :: pre, p, post, b1, by simp [hl], ?_, hp⟩
        intro q hq
        rcases List.mem_cons.1 hq with rfl | hq
        · exact hm
        · exact hpre q hq

/-- The loop of `Ignore` returns `(false, nil)` when `Match` reports neither a match nor
an error on any pattern of the list. -/
theorem Ignore_loop_false_of (path : GoString) (l : List GoString)
    (h : ∀ q ∈ l, Match q (Base path) = (false, none)) :
    Config.Ignore.loop path l = (false, none) := by
  induction l with
  | nil => rfl
  | cons a l ih =>
    rw [Config.Ignore.loop, h a (by simp)]
    exact ih (fun q hq => h q (List.mem_cons_of_mem _ hq))

/-- C3, as the code has it. `Ignore` returns `(true, nil)` if and only if some pattern of
`Ignores` glob-matches the base name of the path (not the path itself) and `Match`
reports no error, for that base name, on any pattern that comes before it in the
list; with an empty or nil list it returns `(false, nil)` for every path. -/
theorem Ignore_true_iff (c : Config) (path : GoString) :
    (c.Ignore path = (true, none) ↔
      ∃ pre p post, c.Ignores.getD [] = pre ++ p :: post ∧
        Match p (Base path) = (true, none) ∧
        ∀ q ∈ pre, (Match q (Base path)).2 = none) ∧
    (c.Ignores.getD [] = [] → c.Ignore path = (false, none)) := by
  refine ⟨Ignore_loop_true_iff path _, ?_⟩
  intro h
  simp [Config.Ignore, h, Config.Ignore.loop]

/-- The pattern `*.tmp` makes `Ignore` return true for `src/b.tmp`, and a nil ignore list
makes it return false. -/
theorem Ignore_true_iff_witness :
    Config.srcToOut.Ignore (str "src/b.tmp") = (true, none) ∧
      Config.siteToProd.Ignore (str "src/b.tmp") = (false, none) :=
  ⟨(Ignore_true_iff Config.srcToOut (str "src/b.tmp")).1.2
      ⟨[], str "*.tmp", [], rfl, by decide, by simp⟩,
    (Ignore_true_iff Config.siteToProd (str "src/b.tmp")).2 rfl⟩

/-- C3 as stated fails: the second pattern `*.tmp` of the list matches the base name
`b.tmp` of `src/b.tmp`, yet `Ignore` does not return true, since the first pattern
is malformed and `Ignore` returns its error. -/
theorem Ignore_true_iff_counterexample :
    (∃ p ∈ Config.badThenTmp.Ignores.getD [],
        Match p (Base (str "src/b.tmp")) = (true, none)) ∧
      Config.badThenTmp.Ignore (str "src/b.tmp") = (false, some GoError.ErrBadPattern) :=
  ⟨⟨str "*.tmp", by decide, by decide⟩, by decide⟩

/-- A malformed pattern on which `Match` reports no error for the base name is passed
over like a pattern that does not match: `x*[` is malformed, but against `b.tmp` the
match fails in its first chunk, and `Ignore` goes on to `*.tmp`, which matches. -/
theorem Ignore_passes_unreported :
    Match (str "x*[") (str "x") = (false, some GoError.ErrBadPattern) ∧
      Match (str "x*[") (Base (str "src/b.tmp")) = (false, none) ∧
      Config.starBadThenTmp.Ignore (str "src/b.tmp") = (true, none) := by
  decide

/-- Where `Match` reports no error on any pattern of the list for the base name, `Ignore`
returns true exactly when some pattern matches the base name. -/
theorem Ignore_of_wellformed (c : Config) (path : GoString)
    (hwf : ∀ q ∈ c.Ignores.getD [], (Match q (Base path)).2 = none) :
    c.Ignore path = (true, none) ↔
      ∃ p ∈ c.Ignores.getD [], Match p (Base path) = (true, none) := by
  rw [Config.Ignore, Ignore_loop_true_iff]
  constructor
  · rintro ⟨pre, p, post, hl, hp, -⟩
    exact ⟨p, by simp [hl], hp⟩
  · rintro ⟨p, hmem, hp⟩
    obtain ⟨pre, post, hl⟩ := List.append_of_mem hmem
    exact ⟨pre, p, post, hl, hp, fun q hq => hwf q (by simp [hl, hq])⟩

/-- The pattern is matched against the base name: `*.tmp` does not match the path
`src/b.tmp`, in which a star would have to pass a separator, and `Ignore` returns true
for it. -/
theorem Ignore_base_name :
    Match (str "*.tmp") (str "src/b.tmp") = (false, none) ∧
      Config.srcToOut.Ignore (str "src/b.tmp") = (true, none) := by
  decide

/-! ## `strings.Index` and `strings.Replace` -/

/-- The result of `Index` is negative only if `substr` does not occur in `s`. -/
theorem Index_neg_iff (s substr : GoString) : Index s substr < 0 ↔ ¬ substr <:+: s := by
  induction s with
  | nil =>
    by_cases h : substr = [] <;> simp [Index, h]
  | cons b s ih =>
    rw [Index]
    by_cases hp : substr.isPrefixOf (b :: s) = true
    · have : substr <+: b :: s := List.isPrefixOf_iff_prefix.1 hp
      simp [hp, this.isInfix]
    · have hnp : ¬ substr <+: b :: s := fun h => hp (List.isPrefixOf_iff_prefix.2 h)
      rw [if_neg hp, List.infix_cons_iff]
      by_cases hi : Index s substr < 0
      · rw [if_pos hi]
        have := ih.1 hi
        simp [hnp, this]
      · rw [if_neg hi]
        have : substr <:+: s := by
          by_contra hc
          exact hi (ih.2 hc)
        constructor
        · intro h; omega
        · intro h; exact absurd (Or.inr this) h

/-- The result of `Index` is the length of what comes before the leftmost occurrence. -/
theorem Index_of_leftmost (pre substr post : GoString)
    (hleft : ∀ pre' post', pre ++ substr ++ post = pre' ++ substr ++ post' →
      pre.length ≤ pre'.length) :
    Index (pre ++ substr ++ post) substr = pre.length := by
  induction pre with
  | nil =>
    simp only [List.nil_append, List.length_nil, Nat.cast_zero]
    cases hs : substr ++ post with
    | nil =>
      have : substr = [] := (List.append_eq_nil.1 hs).1
      simp [Index, this]
    | cons b t =>
      rw [Index, ← hs]
      have : substr.isPrefixOf (substr ++ post) = true :=
        List.isPrefixOf_iff_prefix.2 (List.prefix_append _ _)
      simp [this]
  | cons a pre ih =>
    have hnp : ¬ substr.isPrefixOf (a :: (pre ++ substr ++ post)) = true := by
      intro hp
      obtain ⟨t, ht⟩ := List.isPrefixOf_iff_prefix.1 hp
      have := hleft [] t (by simpa using ht.symm)
      simp at this
    have ih' := ih (by
      intro pre' post' h
      have := hleft (a :: pre') post' (by simp [h])
      simpa using this)
    have hpos : ¬ ((pre.length : Int) < 0) := by omega
    rw [List.cons_append, List.cons_append, Index, if_neg hnp, ih', if_neg hpos]
    simp

/-- An occurrence that `Index` finds lies within the string. -/
theorem Index_add_length_le (s substr : GoString) (h : ¬ Index s substr < 0) :
    (Index s substr).toNat + substr.length ≤ s.length := by
  induction s with
  | nil =>
    by_cases hs : substr = [] <;> simp [Index, hs] at h ⊢
  | cons b s ih =>
    rw [Index] at h ⊢
    split_ifs at h ⊢ with hp hi
    · have := (List.isPrefixOf_iff_prefix.1 hp).length_le
      simpa using this
    · simp at h
    · have := ih hi
      have h0 : 0 ≤ Index s substr := by omega
      simp only [List.length_cons]
      omega

/-- The loop of `strings.Count` does not depend on its fuel, once the fuel exceeds the
length of the string. -/
theorem Count_loop_fuel (fuel fuel' : Nat) (s substr : GoString) (hsub : substr ≠ [])
    (h : s.length < fuel) (h' : s.length < fuel') :
    Count.loop fuel s substr = Count.loop fuel' s substr := by
  induction fuel generalizing fuel' s with
  | zero => omega
  | succ fuel ih =>
    cases fuel' with
    | zero => omega
    | succ fuel' =>
      simp only [Count.loop]
      split_ifs with hi
      · rfl
      · have hle := Index_add_length_le s substr hi
        have hpos : 0 < substr.length := List.length_pos.2 hsub
        congr 1
        exact ih _ _ (by simp only [List.length_drop]; omega)
          (by simp only [List.length_drop]; omega)

/-- With a non-empty `old`, `Count` is zero exactly when `Index` finds nothing. -/
theorem Count_eq_zero_iff (s old : GoString) (hold : old ≠ []) :
    Count s old = 0 ↔ Index s old < 0 := by
  simp only [Count, hold, if_false, Count.loop]
  by_cases h : Index s old < 0
  · simp [h]
  · simp only [h, if_false, iff_false]
    omega

/-- One replacement of a non-empty `old` by nothing, in a string in which `old` occurs:
the string without the bytes of the occurrence that `Index` finds. -/
theorem Replace_one_of_index (s old : GoString) (hold : old ≠ [])
    (h : ¬ Index s old < 0) :
    Replace s old [] 1 =
      s.take (Index s old).toNat ++ s.drop ((Index s old).toNat + old.length) := by
  have hm : Count s old ≠ 0 := fun hc => h ((Count_eq_zero_iff s old hold).1 hc)
  have hn : ¬ ((1 : Int) < 0 ∨ ((Count s old : Nat) : Int) < 1) := by omega
  simp [Replace, hold, hm, hn, Replace.loop]

/-- One replacement in a string in which a non-empty `old` does not occur changes
nothing. -/
theorem Replace_one_of_not_infix (s old : GoString) (hold : old ≠ [])
    (h : ¬ old <:+: s) : Replace s old [] 1 = s := by
  have hi : Index s old < 0 := (Index_neg_iff s old).2 h
  have hm : Count s old = 0 := (Count_eq_zero_iff s old hold).2 hi
  simp [Replace, hold, hm]

/-- One replacement of a non-empty `old` by nothing removes the leftmost occurrence of
`old` and nothing else. -/
theorem Replace_one_of_leftmost (pre old post : GoString) (hold : old ≠ [])
    (hleft : ∀ pre' post', pre ++ old ++ post = pre' ++ old ++ post' →
      pre.length ≤ pre'.length) :
    Replace (pre ++ old ++ post) old [] 1 = pre ++ post := by
  have hi := Index_of_leftmost pre old post hleft
  rw [Replace_one_of_index _ _ hold (by rw [hi]; omega), hi]
  simp [List.take_append_eq_append_take, List.drop_append_eq_append_drop]

/-! ## The key of an upload -/

/-- When `os.Stat` and `os.Open` succeed, `PutFile` makes its upload call and returns what
`PutReader` returns. -/
theorem PutFile_of_ok (w : World) (config : Config) (path : GoString) (log : Log)
    (stat : FileInfo) (hs : w.Stat path = .ok stat) (ho : w.Open path = none) :
    PutFile w config path log =
      (w.PutReader (PutFile.call w config path stat),
        { log with puts := log.puts ++ [PutFile.call w config path stat] }) := by
  unfold PutFile
  simp only [hs, ho]
  cases w.PutReader (PutFile.call w config path stat) <;> rfl

/-- The function `PutFile` makes no upload call or one, which it appends to the log. -/
theorem PutFile_puts (w : World) (config : Config) (path : GoString) (log : Log) :
    (PutFile w config path log).2.puts = log.puts ∨
      ∃ stat, w.Stat path = .ok stat ∧ w.Open path = none ∧
        (PutFile w config path log).2.puts = log.puts ++ [PutFile.call w config path stat] := by
  cases hs : w.Stat path with
  | error e => left; simp [PutFile, hs]
  | ok stat =>
    cases ho : w.Open path with
    | some e => left; simp [PutFile, hs, ho]
    | none =>
      right
      exact ⟨stat, rfl, rfl, by rw [PutFile_of_ok w config path log stat hs ho]⟩

/-- C4. With a non-empty `From`, `PutFile` makes at most one upload call, makes it whenever
the file can be read, and the key of the call is `To` followed by the path without
the leftmost occurrence of `From`: a path in which `From` does not occur follows
`To` unchanged, and of a path `pre ++ From ++ post` whose `pre` is the shortest
possible, `pre ++ post` follows `To`, later occurrences of `From` in `post`
included. -/
theorem PutFile_key (w : World) (config : Config) (path : GoString) (log : Log)
    (hFrom : config.From ≠ []) :
    ((PutFile w config path log).2.puts = log.puts ∨
      ∃ call, (PutFile w config path log).2.puts = log.puts ++ [call]) ∧
    (∀ stat, w.Stat path = .ok stat → w.Open path = none →
      ∃ call, (PutFile w config path log).2.puts = log.puts ++ [call]) ∧
    (∀ call, (PutFile w config path log).2.puts = log.puts ++ [call] →
      (¬ config.From <:+: path → call.key = config.To ++ path) ∧
      (∀ pre post, path = pre ++ config.From ++ post →
        (∀ pre' post', path = pre' ++ config.From ++ post' → pre.length ≤ pre'.length) →
        call.key = config.To ++ pre ++ post)) := by
  refine ⟨?_, ?_, ?_⟩
  · rcases PutFile_puts w config path log with h | ⟨stat, -, -, h⟩
    · exact Or.inl h
    · exact Or.inr ⟨_, h⟩
  · intro stat hs ho
    exact ⟨_, by rw [PutFile_of_ok w config path log stat hs ho]⟩
  · intro call hcall
    have hkey : call.key = config.To ++ Replace path config.From [] 1 := by
      rcases PutFile_puts w config path log with h | ⟨stat, -, -, h⟩
      · rw [h] at hcall
        have := congrArg List.length hcall
        simp at this
      · rw [h] at hcall
        have := List.append_cancel_left hcall
        simp only [List.cons.injEq, and_true] at this
        rw [← this]
        rfl
    refine ⟨?_, ?_⟩
    · intro hn
      rw [hkey, Replace_one_of_not_infix path config.From hFrom hn]
    · intro pre post hp hleft
      subst hp
      rw [hkey, Replace_one_of_leftmost pre config.From post hFrom hleft, List.append_assoc]

/-- The key of `src/a/src/b.txt` under `From = "src"` and `To = "out/"`: the first `src`
is removed, the second stays. -/
theorem PutFile_key_witness :
    ∃ call, (PutFile World.allOk Config.srcToOut (str "src/a/src/b.txt") Log.empty).2.puts
        = [call] ∧ call.key = str "out//a/src/b.txt" := by
  have h := PutFile_key World.allOk Config.srcToOut (str "src/a/src/b.txt") Log.empty
    (by decide)
  obtain ⟨call, hc⟩ := h.2.1 _ rfl rfl
  refine ⟨call, by simpa [Log.empty] using hc, ?_⟩
  rw [(h.2.2 call hc).2 [] (str "/a/src/b.txt") (by decide) (fun _ _ _ => Nat.zero_le _)]
  decide

/-- C10 as stated fails: for the path `/site/css/a.css`, `From = "/site"` and
`To = "prod"`, the key of the upload is `prod/css/a.css`, which is not
`prodcss/a.css`: the separator after `/site` stays in the path. -/
theorem site_key_counterexample :
    (PutFile World.allOk Config.siteToProd (str "/site/css/a.css") Log.empty).2.puts.map
        (fun call => call.key) = [str "prod/css/a.css"] ∧
      str "prod/css/a.css" ≠ str "prodcss/a.css" := by
  decide

/-- C10, as the code has it. For the path `/site/css/a.css`, `From = "/site"` and
`To = "prod"`, the key of the upload call of `PutFile` is `prod/css/a.css`. -/
theorem site_key (w : World) (config : Config) (log : Log) (stat : FileInfo)
    (hFrom : config.From = str "/site") (hTo : config.To = str "prod")
    (hs : w.Stat (str "/site/css/a.css") = .ok stat)
    (ho : w.Open (str "/site/css/a.css") = none) :
    ∃ call, (PutFile w config (str "/site/css/a.css") log).2.puts = log.puts ++ [call] ∧
      call.key = str "prod/css/a.css" := by
  refine ⟨_, by rw [PutFile_of_ok w config _ log stat hs ho], ?_⟩
  simp only [PutFile.call, hFrom, hTo]
  decide

/-- The key of `/site/css/a.css` in a world where every call succeeds. -/
theorem site_key_witness :
    ∃ call, (PutFile World.allOk Config.siteToProd (str "/site/css/a.css") Log.empty).2.puts
        = Log.empty.puts ++ [call] ∧ call.key = str "prod/css/a.css" :=
  site_key World.allOk Config.siteToProd Log.empty { Size := 7, IsDir := false }
    rfl rfl rfl rfl

/-! ## The walker callback -/

/-- The callback does nothing on a directory. -/
theorem S3Walker_dir (w : World) (config : Config) (path : GoString) (info : FileInfo)
    (log : Log) (hdir : info.IsDir = true) :
    S3Walker w config path info log = (none, log) := by
  simp [S3Walker, hdir]

/-- The callback returns the error of `Ignore`, and does nothing else. -/
theorem S3Walker_ignore_error (w : World) (config : Config) (path : GoString)
    (info : FileInfo) (log : Log) (b : Bool) (err : GoError) (hdir : info.IsDir = false)
    (hign : config.Ignore path = (b, some err)) :
    S3Walker w config path info log = (some err, log) := by
  simp [S3Walker, hdir, hign]

/-- The callback skips an ignored file. -/
theorem S3Walker_ignored (w : World) (config : Config) (path : GoString) (info : FileInfo)
    (log : Log) (hdir : info.IsDir = false) (hign : config.Ignore path = (true, none)) :
    S3Walker w config path info log = (none, { log with skipped := log.skipped ++ [path] }) := by
  simp [S3Walker, hdir, hign]

/-- The callback on a file that is not ignored: the result of `PutFile` decides. -/
theorem S3Walker_upload (w : World) (config : Config) (path : GoString) (info : FileInfo)
    (log : Log) (hdir : info.IsDir = false) (hign : config.Ignore path = (false, none)) :
    S3Walker w config path info log =
      match PutFile w config path log with
      | (some err, log) => (some err, { log with failed := log.failed ++ [(path, err)] })
      | (none, log) => (none, { log with stdout := log.stdout ++ [path] }) := by
  simp [S3Walker, hdir, hign]

/-- The walk goes on after a call of the callback that returns no error. -/
theorem Walk_cons_ok (w : World) (config : Config) (e : Entry) (entries : List Entry)
    (log log1 : Log) (h : S3Walker w config e.path e.info log = (none, log1)) :
    Walk w config (e :: entries) log = Walk w config entries log1 := by
  simp [Walk, h]

/-- The walk stops at a call of the callback that returns an error. -/
theorem Walk_cons_error (w : World) (config : Config) (e : Entry) (entries : List Entry)
    (log log1 : Log) (err : GoError)
    (h : S3Walker w config e.path e.info log = (some err, log1)) :
    Walk w config (e :: entries) log = (some err, log1) := by
  simp [Walk, h]

/-- The walk of `before ++ e :: after`, when the walk of `before` ends without an error:
it stops at `e` if the callback returns an error there. -/
theorem Walk_append_error (w : World) (config : Config) (before : List Entry) (e : Entry)
    (after : List Entry) (log log1 log2 : Log) (err : GoError)
    (hbefore : Walk w config before log = (none, log1))
    (h : S3Walker w config e.path e.info log1 = (some err, log2)) :
    Walk w config (before ++ e :: after) log = (some err, log2) := by
  induction before generalizing log with
  | nil =>
    simp only [Walk, Prod.mk.injEq, true_and] at hbefore
    subst hbefore
    exact Walk_cons_error w config e after log log2 err h
  | cons b before ih =>
    rw [List.cons_append]
    rcases hb : S3Walker w config b.path b.info log with ⟨r, lg⟩
    cases r with
    | some e1 => simp [Walk, hb] at hbefore
    | none =>
      rw [Walk_cons_ok w config b _ log lg hb]
      rw [Walk_cons_ok w config b _ log lg hb] at hbefore
      exact ih lg hbefore

/-- C5, as the code has it. Over the tree `src/` with `a.txt`, `b.tmp` and `sub/c.txt`,
with `Ignores = ["*.tmp"]`, `From = "src"`, `To = "out/"` and every call of the
world succeeding, the walk ends without an error, the keys uploaded are
`out//a.txt` and `out//sub/c.txt` (the separator after `src` stays in the key),
`b.tmp` alone is skipped and has no upload, and two files are uploaded, one is
skipped, none fails. -/
theorem Walk_scenario (w : World) (config : Config)
    (hI : config.Ignores = some [str "*.tmp"]) (hF : config.From = str "src")
    (hT : config.To = str "out/")
    (hStat : ∀ path, ∃ stat, w.Stat path = .ok stat) (hOpen : ∀ path, w.Open path = none)
    (hPut : ∀ call, w.PutReader call = none) :
    (Walk w config Entry.scenario Log.empty).1 = none ∧
    (Walk w config Entry.scenario Log.empty).2.puts.map (fun call => call.key)
      = [str "out//a.txt", str "out//sub/c.txt"] ∧
    (Walk w config Entry.scenario Log.empty).2.puts.map (fun call => call.file)
      = [str "src/a.txt", str "src/sub/c.txt"] ∧
    (Walk w config Entry.scenario Log.empty).2.stdout = [str "src/a.txt", str "src/sub/c.txt"] ∧
    (Walk w config Entry.scenario Log.empty).2.skipped = [str "src/b.tmp"] ∧
    (Walk w config Entry.scenario Log.empty).2.failed = [] ∧
    (Walk w config Entry.scenario Log.empty).2.puts.length = 2 ∧
    (Walk w config Entry.scenario Log.empty).2.skipped.length = 1 ∧
    (Walk w config Entry.scenario Log.empty).2.failed.length = 0 := by
  have ign : ∀ path, config.Ignore path = Config.Ignore.loop path [str "*.tmp"] := by
    intro path; simp [Config.Ignore, hI]
  have put : ∀ path log, ∃ stat, PutFile w config path log =
      (none, { log with puts := log.puts ++ [PutFile.call w config path stat] }) := by
    intro path log
    obtain ⟨stat, hs⟩ := hStat path
    exact ⟨stat, by rw [PutFile_of_ok w config path log stat hs (hOpen path), hPut]⟩
  have key : ∀ path stat, (PutFile.call w config path stat).key
      = str "out/" ++ Replace path (str "src") [] 1 := by
    intro path stat; simp [PutFile.call, hF, hT]
  have file : ∀ path stat, (PutFile.call w config path stat).file = path := fun _ _ => rfl
  obtain ⟨st1, h1⟩ := put (str "src/a.txt") Log.empty
  obtain ⟨st2, h2⟩ := put (str "src/sub/c.txt")
    { puts := [PutFile.call w config (str "src/a.txt") st1], stdout := [str "src/a.txt"],
      skipped := [str "src/b.tmp"], failed := [] }
  have e : Walk w config Entry.scenario Log.empty = (none,
      { puts := [PutFile.call w config (str "src/a.txt") st1,
          PutFile.call w config (str "src/sub/c.txt") st2],
        stdout := [str "src/a.txt", str "src/sub/c.txt"],
        skipped := [str "src/b.tmp"], failed := [] }) := by
    rw [Entry.scenario,
      Walk_cons_ok w config _ _ _ _ (S3Walker_dir w config _ _ _ rfl),
      Walk_cons_ok w config (Entry.file "src/a.txt") _ Log.empty
        { puts := [PutFile.call w config (str "src/a.txt") st1], stdout := [str "src/a.txt"],
          skipped := [], failed := [] }
        (by
          rw [S3Walker_upload w config _ _ _ rfl (by rw [ign]; decide)]
          simp only [Entry.file]
          rw [h1]; rfl),
      Walk_cons_ok w config (Entry.file "src/b.tmp") _ _
        { puts := [PutFile.call w config (str "src/a.txt") st1], stdout := [str "src/a.txt"],
          skipped := [str "src/b.tmp"], failed := [] }
        (by rw [S3Walker_ignored w config _ _ _ rfl (by rw [ign]; decide)]; rfl),
      Walk_cons_ok w config _ _ _ _ (S3Walker_dir w config _ _ _ rfl),
      Walk_cons_ok w config (Entry.file "src/sub/c.txt") _ _
        { puts := [PutFile.call w config (str "src/a.txt") st1,
            PutFile.call w config (str "src/sub/c.txt") st2],
          stdout := [str "src/a.txt", str "src/sub/c.txt"],
          skipped := [str "src/b.tmp"], failed := [] }
        (by
          rw [S3Walker_upload w config _ _ _ rfl (by rw [ign]; decide)]
          simp only [Entry.file]
          rw [h2]; rfl),
      Walk]
  rw [e]
  refine ⟨rfl, ?_, ?_, rfl, rfl, rfl, rfl, rfl, rfl⟩
  · simp only [List.map, key]
    decide
  · simp only [List.map, file]

/-- The scenario in the world where every call succeeds. -/
theorem Walk_scenario_witness :
    (Walk World.allOk Config.srcToOut Entry.scenario Log.empty).1 = none ∧
    (Walk World.allOk Config.srcToOut Entry.scenario Log.empty).2.puts.map
      (fun call => call.key) = [str "out//a.txt", str "out//sub/c.txt"] ∧
    (Walk World.allOk Config.srcToOut Entry.scenario Log.empty).2.skipped
      = [str "src/b.tmp"] :=
  have h := Walk_scenario World.allOk Config.srcToOut rfl rfl rfl
    (fun _ => ⟨_, rfl⟩) (fun _ => rfl) (fun _ => rfl)
  ⟨h.1, h.2.1, h.2.2.2.2.1⟩

/-- C5 as stated fails: in the scenario the key `out/a.txt` is not uploaded; the key of
`src/a.txt` is `out//a.txt`. -/
theorem Walk_scenario_counterexample :
    str "out/a.txt" ∉ (Walk World.allOk Config.srcToOut Entry.scenario Log.empty).2.puts.map
        (fun call => call.key) ∧
      str "out/sub/c.txt" ∉ (Walk World.allOk Config.srcToOut Entry.scenario Log.empty).2.puts.map
        (fun call => call.key) ∧
      (Walk World.allOk Config.srcToOut Entry.scenario Log.empty).2.puts.map
        (fun call => call.key) = [str "out//a.txt", str "out//sub/c.txt"] := by
  decide!

/-- The function `PutFile` prints nothing. -/
theorem PutFile_stdout (w : World) (config : Config) (path : GoString) (log : Log) :
    (PutFile w config path log).2.stdout = log.stdout := by
  cases hs : w.Stat path with
  | error e => simp [PutFile, hs]
  | ok stat =>
    cases ho : w.Open path with
    | some e => simp [PutFile, hs, ho]
    | none => rw [PutFile_of_ok w config path log stat hs ho]

/-- A `PutFile` that returns no error has read the file and made an upload call that
succeeded, which is what it adds to the log. -/
theorem PutFile_none (w : World) (config : Config) (path : GoString) (log lg : Log)
    (h : PutFile w config path log = (none, lg)) :
    ∃ stat, w.Stat path = .ok stat ∧ w.Open path = none ∧
      w.PutReader (PutFile.call w config path stat) = none ∧
      lg = { log with puts := log.puts ++ [PutFile.call w config path stat] } := by
  cases hs : w.Stat path with
  | error e => simp [PutFile, hs] at h
  | ok stat =>
    cases ho : w.Open path with
    | some e => simp [PutFile, hs, ho] at h
    | none =>
      rw [PutFile_of_ok w config path log stat hs ho] at h
      simp only [Prod.mk.injEq] at h
      exact ⟨stat, rfl, rfl, h.1, h.2.symm⟩

/-- The callback only adds to the upload calls and to the printed lines of the log. -/
theorem S3Walker_mono (w : World) (config : Config) (path : GoString) (info : FileInfo)
    (log : Log) :
    log.puts <+: (S3Walker w config path info log).2.puts ∧
      log.stdout <+: (S3Walker w config path info log).2.stdout := by
  by_cases hdir : info.IsDir = true
  · simp [S3Walker, hdir]
  · rcases hI : config.Ignore path with ⟨ig, ie⟩
    cases ie with
    | some err => simp [S3Walker, hdir, hI]
    | none =>
      cases ig with
      | true => simp [S3Walker, hdir, hI]
      | false =>
        have hp := PutFile_puts w config path log
        have hs := PutFile_stdout w config path log
        rcases hP : PutFile w config path log with ⟨r, lg⟩
        rw [hP] at hp hs
        simp only at hp hs
        have hpre : log.puts <+: lg.puts := by
          rcases hp with h | ⟨stat, -, -, h⟩
          · rw [h]
          · rw [h]; exact List.prefix_append _ _
        cases r with
        | some err => simp [S3Walker, hdir, hI, hP, hpre, hs]
        | none => simp [S3Walker, hdir, hI, hP, hpre, hs]

/-- The walk only adds to the upload calls and to the printed lines of the log. -/
theorem Walk_mono (w : World) (config : Config) (entries : List Entry) (log : Log) :
    log.puts <+: (Walk w config entries log).2.puts ∧
      log.stdout <+: (Walk w config entries log).2.stdout := by
  induction entries generalizing log with
  | nil => simp [Walk]
  | cons e es ih =>
    have hm := S3Walker_mono w config e.path e.info log
    rcases hS : S3Walker w config e.path e.info log with ⟨r, lg⟩
    rw [hS] at hm
    cases r with
    | some err =>
      rw [Walk_cons_error w config e es log lg err hS]
      exact hm
    | none =>
      rw [Walk_cons_ok w config e es log lg hS]
      exact ⟨hm.1.trans (ih lg).1, hm.2.trans (ih lg).2⟩

/-- After a walk that ends without an error, every entry that is a file and is not ignored
has been uploaded: the file was read, its upload call is in the log and succeeded,
and its path is printed. -/
theorem Walk_ok_uploaded (w : World) (config : Config) (entries : List Entry)
    (log log1 : Log) (h : Walk w config entries log = (none, log1)) :
    ∀ e ∈ entries, e.info.IsDir = false → config.Ignore e.path = (false, none) →
      ∃ stat, w.Stat e.path = .ok stat ∧
        w.PutReader (PutFile.call w config e.path stat) = none ∧
        PutFile.call w config e.path stat ∈ log1.puts ∧ e.path ∈ log1.stdout := by
  induction entries generalizing log with
  | nil => simp
  | cons b bs ih =>
    intro e he hdir hign
    rcases hS : S3Walker w config b.path b.info log with ⟨r, lg⟩
    cases r with
    | some err => simp [Walk, hS] at h
    | none =>
      rw [Walk_cons_ok w config b bs log lg hS] at h
      rcases List.mem_cons.1 he with rfl | hmem
      · rw [S3Walker_upload w config _ _ log hdir hign] at hS
        rcases hP : PutFile w config e.path log with ⟨r, lg0⟩
        rw [hP] at hS
        cases r with
        | some err => simp at hS
        | none =>
          simp only [Prod.mk.injEq, true_and] at hS
          obtain ⟨stat, hst, -, hput, hlg0⟩ := PutFile_none w config e.path log lg0 hP
          have hm := Walk_mono w config bs lg
          rw [h] at hm
          refine ⟨stat, hst, hput, hm.1.subset ?_, hm.2.subset ?_⟩
          · rw [← hS, hlg0]; simp
          · rw [← hS]; simp
      · exact ih lg h e hmem hdir hign

/-- C6, as the code has it. A failed upload aborts the walk. When the walk of the entries
before `e` ends without an error, and `e` is a file that is not ignored and whose
`PutFile` returns the error `err`, the callback returns `err` and the walk of
`before ++ e :: after` stops at `e` with that error. Its log is the log of the failed
`PutFile`: it is the same whatever `after` is, and holds, behind the upload calls of
the walk of `before`, at most the call for `e`, so that no entry of `after` is
attempted. Every entry of `before` that is a file and is not ignored has been
uploaded: the file was read, its upload call succeeded and is in the log, and its
path is printed. -/
theorem Walk_upload_failure_aborts (w : World) (config : Config) (before : List Entry)
    (e : Entry) (after : List Entry) (log log1 : Log) (err : GoError)
    (hbefore : Walk w config before log = (none, log1))
    (hdir : e.info.IsDir = false)
    (hign : config.Ignore e.path = (false, none))
    (hput : (PutFile w config e.path log1).1 = some err) :
    S3Walker w config e.path e.info log1 =
      (some err, { (PutFile w config e.path log1).2 with
        failed := (PutFile w config e.path log1).2.failed ++ [(e.path, err)] }) ∧
    Walk w config (before ++ e :: after) log =
      (some err, { (PutFile w config e.path log1).2 with
        failed := (PutFile w config e.path log1).2.failed ++ [(e.path, err)] }) ∧
    Walk w config (before ++ e :: after) log = Walk w config (before ++ [e]) log ∧
    ((Walk w config (before ++ e :: after) log).2.puts = log1.puts ∨
      ∃ stat, (Walk w config (before ++ e :: after) log).2.puts
        = log1.puts ++ [PutFile.call w config e.path stat]) ∧
    (Walk w config (before ++ e :: after) log).2.stdout = log1.stdout ∧
    (∀ b ∈ before, b.info.IsDir = false → config.Ignore b.path = (false, none) →
      ∃ stat, w.Stat b.path = .ok stat ∧
        w.PutReader (PutFile.call w config b.path stat) = none ∧
        PutFile.call w config b.path stat ∈ (Walk w config (before ++ e :: after) log).2.puts ∧
        b.path ∈ (Walk w config (before ++ e :: after) log).2.stdout) := by
  have hcb : S3Walker w config e.path e.info log1 =
      (some err, { (PutFile w config e.path log1).2 with
        failed := (PutFile w config e.path log1).2.failed ++ [(e.path, err)] }) := by
    rw [S3Walker_upload w config e.path e.info log1 hdir hign]
    rcases hp : PutFile w config e.path log1 with ⟨r, lg⟩
    rw [hp] at hput
    simp only at hput
    subst hput
    rfl
  have hwalk := Walk_append_error w config before e after log log1 _ err hbefore hcb
  have hputs : (Walk w config (before ++ e :: after) log).2.puts
      = (PutFile w config e.path log1).2.puts := by rw [hwalk]
  have hout : (Walk w config (before ++ e :: after) log).2.stdout = log1.stdout := by
    rw [hwalk]; exact PutFile_stdout w config e.path log1
  have hpre : log1.puts <+: (Walk w config (before ++ e :: after) log).2.puts := by
    rw [hputs]
    rcases PutFile_puts w config e.path log1 with h | ⟨stat, -, -, h⟩
    · rw [h]
    · rw [h]; exact List.prefix_append _ _
  refine ⟨hcb, hwalk, ?_, ?_, hout, ?_⟩
  · rw [hwalk, Walk_append_error w config before e [] log log1 _ err hbefore hcb]
  · rw [hputs]
    rcases PutFile_puts w config e.path log1 with h | ⟨stat, -, -, h⟩
    · exact Or.inl h
    · exact Or.inr ⟨stat, h⟩
  · intro b hb hbdir hbign
    obtain ⟨stat, hst, hok, hmem, hprinted⟩ :=
      Walk_ok_uploaded w config before log log1 hbefore b hb hbdir hbign
    exact ⟨stat, hst, hok, hpre.subset hmem, by rw [hout]; exact hprinted⟩

/-- With the upload of `src/b.txt` failing, the walk is the same with and without
`src/c.txt` after it, and `src/a.txt`, which comes before, has been uploaded. -/
theorem Walk_upload_failure_aborts_witness :
    Walk World.failB Config.srcToOut
        ([Entry.dir "src", Entry.file "src/a.txt"] ++ Entry.file "src/b.txt"
          :: [Entry.file "src/c.txt"]) Log.empty
      = Walk World.failB Config.srcToOut
        ([Entry.dir "src", Entry.file "src/a.txt"] ++ [Entry.file "src/b.txt"]) Log.empty ∧
    ∃ stat, World.failB.Stat (str "src/a.txt") = .ok stat ∧
      World.failB.PutReader (PutFile.call World.failB Config.srcToOut (str "src/a.txt") stat)
        = none ∧
      PutFile.call World.failB Config.srcToOut (str "src/a.txt") stat ∈
        (Walk World.failB Config.srcToOut
          ([Entry.dir "src", Entry.file "src/a.txt"] ++ Entry.file "src/b.txt"
            :: [Entry.file "src/c.txt"]) Log.empty).2.puts ∧
      str "src/a.txt" ∈
        (Walk World.failB Config.srcToOut
          ([Entry.dir "src", Entry.file "src/a.txt"] ++ Entry.file "src/b.txt"
            :: [Entry.file "src/c.txt"]) Log.empty).2.stdout :=
  have h := Walk_upload_failure_aborts World.failB Config.srcToOut
    [Entry.dir "src", Entry.file "src/a.txt"] (Entry.file "src/b.txt")
    [Entry.file "src/c.txt"] Log.empty
    { puts := [PutFile.call World.failB Config.srcToOut (str "src/a.txt")
        { Size := 7, IsDir := false }],
      stdout := [str "src/a.txt"], skipped := [], failed := [] }
    (.S3Error "connection reset") (by decide) (by decide) (by decide) (by decide)
  ⟨h.2.2.1, h.2.2.2.2.2 (Entry.file "src/a.txt") (by simp) rfl (by decide)⟩

/-- C6 as stated fails: of the three files `a.txt`, `b.txt` and `c.txt`, the upload of
`b.txt` fails; the walk returns that error, only `a.txt` is uploaded, and `c.txt`,
which is later, not a directory and not ignored, has no upload call. -/
theorem Walk_upload_failure_counterexample :
    (Walk World.failB Config.srcToOut Entry.threeFiles Log.empty).1
        = some (GoError.S3Error "connection reset") ∧
      (Walk World.failB Config.srcToOut Entry.threeFiles Log.empty).2.stdout
        = [str "src/a.txt"] ∧
      (Walk World.failB Config.srcToOut Entry.threeFiles Log.empty).2.puts.map
        (fun call => call.file) = [str "src/a.txt", str "src/b.txt"] ∧
      Config.srcToOut.Ignore (str "src/c.txt") = (false, none) ∧
      World.failB.PutReader
        (PutFile.call World.failB Config.srcToOut (str "src/c.txt") { Size := 7, IsDir := false })
        = none := by
  decide!

/-- C7, as the code has it. For a path that is not a directory, `Ignore` returns the error
`err` exactly when `Match` reports `err` on a pattern of the ignore list for the base
name of the path and reports neither a match nor an error on every pattern before
it; the boolean is then false. In that case the callback returns `err` with the log
unchanged (no upload call is made and nothing is printed), and the walk stops there
with that error. A pattern on which `Match` reports no error for the base name,
malformed or not, is not reported: when `Match` reports neither a match nor an error
on any pattern, `Ignore` returns `(false, nil)` and the callback goes on to
`PutFile`. -/
theorem Ignore_error_aborts (w : World) (config : Config) (path : GoString)
    (info : FileInfo) (err : GoError) (hdir : info.IsDir = false) :
    (config.Ignore path = (false, some err) ↔
      ∃ pre p post b, config.Ignores.getD [] = pre ++ p :: post ∧
        (∀ q ∈ pre, Match q (Base path) = (false, none)) ∧
        Match p (Base path) = (b, some err)) ∧
    ((config.Ignore path).2 = some err → config.Ignore path = (false, some err)) ∧
    (config.Ignore path = (false, some err) →
      (∀ log, S3Walker w config path info log = (some err, log)) ∧
      (∀ before after log log1, Walk w config before log = (none, log1) →
        Walk w config (before ++ { path := path, info := info } :: after) log
          = (some err, log1))) ∧
    ((∀ q ∈ config.Ignores.getD [], Match q (Base path) = (false, none)) →
      config.Ignore path = (false, none) ∧
      ∀ log, S3Walker w config path info log =
        match PutFile w config path log with
        | (some e, lg) => (some e, { lg with failed := lg.failed ++ [(path, e)] })
        | (none, lg) => (none, { lg with stdout := lg.stdout ++ [path] })) := by
  refine ⟨⟨?_, ?_⟩, ?_, ?_, ?_⟩
  · intro h
    exact (Ignore_loop_error_elim path _ false err h).2
  · rintro ⟨pre, p, post, b, hl, hpre, hp⟩
    rw [Config.Ignore, hl]
    exact Ignore_loop_error_of path pre p post b err hpre hp
  · intro h
    rcases hI : config.Ignore path with ⟨r, e⟩
    rw [hI] at h
    simp only at h
    subst h
    rw [(Ignore_loop_error_elim path _ r err hI).1]
  · intro hign
    have hcb : ∀ log, S3Walker w config path info log = (some err, log) :=
      fun log => S3Walker_ignore_error w config path info log false err hdir hign
    refine ⟨hcb, ?_⟩
    intro before after log log1 hbefore
    exact Walk_append_error w config before _ after log log1 log1 err hbefore (hcb log1)
  · intro hall
    have hign : config.Ignore path = (false, none) := Ignore_loop_false_of path _ hall
    exact ⟨hign, fun log => S3Walker_upload w config path info log hdir hign⟩

/-- The malformed first pattern of `Config.badThenTmp` stops the walk at `src/a.txt`. -/
theorem Ignore_error_aborts_witness :
    Config.badThenTmp.Ignore (str "src/a.txt") = (false, some GoError.ErrBadPattern) ∧
    (∀ log, S3Walker World.allOk Config.badThenTmp (str "src/a.txt")
      { Size := 7, IsDir := false } log = (some GoError.ErrBadPattern, log)) ∧
    (∀ before after log log1, Walk World.allOk Config.badThenTmp before log = (none, log1) →
      Walk World.allOk Config.badThenTmp
        (before ++ { path := str "src/a.txt", info := { Size := 7, IsDir := false } } :: after)
        log = (some GoError.ErrBadPattern, log1)) :=
  have h := Ignore_error_aborts World.allOk Config.badThenTmp (str "src/a.txt")
    { Size := 7, IsDir := false } GoError.ErrBadPattern rfl
  have hign := h.1.2 ⟨[], str "[", [str "*.tmp"], false, by decide, by simp, by decide⟩
  ⟨hign, (h.2.2.1 hign).1, (h.2.2.1 hign).2⟩

/-- C7 as stated fails, in two ways. The list `["*.tmp", "["]` holds the malformed pattern
`[`, on which `Match` reports `ErrBadPattern` for the base name `b.tmp`, but the
pattern `*.tmp` before it matches: `Ignore` returns `(true, nil)` for the file
`src/b.tmp`, and the callback returns no error. The list `["x*["]` holds the pattern
`x*[`, which is malformed (`Match` reports `ErrBadPattern` for the name `x`), but for
the base name `b.tmp` the match fails in the first chunk and `Match` reports no
error: `Ignore` returns `(false, nil)` and the callback uploads the file under the
key `out//b.tmp`. -/
theorem Ignore_error_counterexample :
    (str "[" ∈ Config.tmpThenBad.Ignores.getD [] ∧
      Match (str "[") (Base (str "src/b.tmp")) = (false, some GoError.ErrBadPattern) ∧
      Config.tmpThenBad.Ignore (str "src/b.tmp") = (true, none) ∧
      (S3Walker World.allOk Config.tmpThenBad (str "src/b.tmp") { Size := 7, IsDir := false }
        Log.empty).1 = none) ∧
    (str "x*[" ∈ Config.starBad.Ignores.getD [] ∧
      Match (str "x*[") (str "x") = (false, some GoError.ErrBadPattern) ∧
      Match (str "x*[") (Base (str "src/b.tmp")) = (false, none) ∧
      Config.starBad.Ignore (str "src/b.tmp") = (false, none) ∧
      (S3Walker World.allOk Config.starBad (str "src/b.tmp") { Size := 7, IsDir := false }
        Log.empty).1 = none ∧
      (S3Walker World.allOk Config.starBad (str "src/b.tmp") { Size := 7, IsDir := false }
        Log.empty).2.puts.map (fun call => call.key) = [str "out//b.tmp"]) := by
  decide!

/-! ## The config file -/

/-- Whenever the config file exists and `os.Stat` and `os.Open` succeed, `OpenOrCreate`
returns `(true, nil)`: the error of `parse` does not reach the result. -/
theorem OpenOrCreate_of_exists (fs : FS) (c : ConfigFile) (env pwd data : GoString)
    (hwd : fs.Getwd = .ok pwd)
    (hfile : fs.files (pwd ++ str "/." ++ env ++ str ".s3.json") = some data)
    (hstat : fs.fault .Stat (pwd ++ str "/." ++ env ++ str ".s3.json") = none)
    (hopen : fs.fault .Open (pwd ++ str "/." ++ env ++ str ".s3.json") = none) :
    (c.OpenOrCreate fs env).1 = (true, none) := by
  simp only [List.append_assoc] at hfile hstat hopen
  simp [ConfigFile.OpenOrCreate, ConfigFile.setPath, ConfigFile.exists, ConfigFile.open,
    hwd, hfile, hstat, hopen]

/-- C8 fails on the code. The config file of the environment `production` exists and holds
`{`, which is not JSON: `parse` returns the syntax error of `json.Unmarshal`, yet
`OpenOrCreate` returns `(true, nil)`, with a `Config` that is all zero. With the
content `{"access": "k", "from": 3}`, `parse` returns a type error, `OpenOrCreate`
again `(true, nil)`, with a `Config` of which only `Access` is set. -/
theorem OpenOrCreate_drops_parse_error :
    (ConfigFile.production.parse (FS.single (str "\x7b"))).1 = some GoError.SyntaxError ∧
    (ConfigFile.new.OpenOrCreate (FS.single (str "\x7b")) (str "production")).1 = (true, none) ∧
    (ConfigFile.new.OpenOrCreate (FS.single (str "\x7b")) (str "production")).2.1.Config
      = some Config.zero ∧
    (ConfigFile.production.parse (FS.single (str "\x7b\"access\": \"k\", \"from\": 3\x7d"))).1
      = some (GoError.UnmarshalTypeError "number" "from") ∧
    (ConfigFile.new.OpenOrCreate (FS.single (str "\x7b\"access\": \"k\", \"from\": 3\x7d"))
      (str "production")).1 = (true, none) ∧
    (ConfigFile.new.OpenOrCreate (FS.single (str "\x7b\"access\": \"k\", \"from\": 3\x7d"))
      (str "production")).2.1.Config = some { Config.zero with Access := str "k" } := by
  decide!

/-- C9, as the code has it. The file that `createBlank` writes is the indented JSON of
`BlankConfig` without the keys `to`, `ignores` and without `Concurrency`; `parse`
reads it without an error into a `Config` whose `Access`, `Secret`, `Bucket`, `From`
and `To` are those of `BlankConfig` (`From` is `_site`, the others are empty), whose
`Ignores` is the nil slice, of length zero like the empty slice of `BlankConfig`,
and whose `Concurrency` is 0. -/
theorem blank_round_trip :
    (ConfigFile.production.createBlank FS.blank).1 = none ∧
    (ConfigFile.production.createBlank FS.blank).2.files ConfigFile.production.Path
      = some (str "\x7b\n    \"access\": \"\",\n    \"secret\": \"\",\n    \"bucket\": \"\",\n    \"from\": \"_site\"\n\x7d") ∧
    (ConfigFile.production.parse (ConfigFile.production.createBlank FS.blank).2).1 = none ∧
    (ConfigFile.production.parse (ConfigFile.production.createBlank FS.blank).2).2.Config
      = some { Access := [], Secret := [], Bucket := [], From := str "_site", To := [],
               Concurrency := 0, Ignores := none } ∧
    BlankConfig.Access = [] ∧ BlankConfig.Secret = [] ∧ BlankConfig.Bucket = [] ∧
    BlankConfig.From = str "_site" ∧ BlankConfig.To = [] ∧
    (BlankConfig.Ignores.getD []).length = 0 := by
  decide!

/-- C9 as stated fails: the `Config` read back is not `BlankConfig`; its `Concurrency` is 0
where that of `BlankConfig` is 10, and its `Ignores` is the nil slice where that of
`BlankConfig` is an empty slice that is not nil. -/
theorem blank_round_trip_counterexample :
    (ConfigFile.production.parse (ConfigFile.production.createBlank FS.blank).2).2.Config
        ≠ some BlankConfig ∧
      ((ConfigFile.production.parse
        (ConfigFile.production.createBlank FS.blank).2).2.Config.map (fun c => c.Concurrency))
        = some 0 ∧
      BlankConfig.Concurrency = 10 ∧
      ((ConfigFile.production.parse
        (ConfigFile.production.createBlank FS.blank).2).2.Config.map (fun c => c.Ignores))
        = some none ∧
      BlankConfig.Ignores = some [] := by
  decide!

end S3Jekyll
